import Mathlib

/-!
Verification of the pco_rclient PCO-writer client (pco_rclient/pco_client.py
and the legacy variant pco_rclient/client/pco_client.py).

Python strings are embedded as List Char. The regular-expression calls of the
source are embedded through a small deep-embedded regex fragment (character
classes, concatenation, left-preferred alternation, greedy star over a class)
with Python's backtracking preference order, so that re.match (anchored prefix
match) and re.findall with a fixed-width lookbehind and a lookahead can be
reproduced faithfully. Object mutation plus exceptions are embedded by the
PyResult carrier, which returns the object state both on normal return and on
a raised exception. The remote HTTP service is a fixed oracle (NetEnv): each
route has one response for the duration of a call.
-/

/-- The exceptions raised by the client code: PcoError and PcoWarning carry
their message text; for a PcoWarning wrapping the ValueError of
ipaddress.ip_address the message is abstracted to the offending input text. -/
inductive PyExn where
  | pcoError (msg : List Char)
  | pcoWarning (msg : List Char)
  | typeError
  | keyError
  | indexError
deriving DecidableEq

deriving instance DecidableEq for Except

/-- Result of a Python method call on an object of state type sigma: the state
is returned both on normal return (with the returned value) and when an
exception escapes, since the object keeps its mutations in either case. -/
inductive PyResult (σ : Type) (α : Type) where
  | ok (s : σ) (v : α)
  | exn (s : σ) (e : PyExn)
deriving DecidableEq

/-- The object state after a call, whether the call returned or raised. -/
def pyState {σ α : Type} : PyResult σ α → σ
  | .ok s _ => s
  | .exn s _ => s

/-- Whether a call returned normally. -/
def pyOk {σ α : Type} : PyResult σ α → Bool
  | .ok _ _ => true
  | .exn _ _ => false

/-- The fragment of Python regular expressions used by pco_client: character
classes, concatenation, alternation (left alternative preferred) and greedy
star over a character class. Fixed repetitions are unrolled with seq. -/
inductive RE where
  | eps : RE
  | cls : (Char → Bool) → RE
  | seq : RE → RE → RE
  | alt : RE → RE → RE
  | star : (Char → Bool) → RE

/-- The rests a greedy class-star can leave of s, longest consumption first,
exactly Python's backtracking preference order for a greedy star. -/
def starRests (p : Char → Bool) : List Char → List (List Char)
  | [] => [[]]
  | c :: rest => if p c then starRests p rest ++ [c :: rest] else [c :: rest]

/-- All rests a match of e against a prefix of s can leave, in Python's
backtracking preference order. -/
def matchRests : RE → List Char → List (List Char)
  | .eps, s => [s]
  | .cls _, [] => []
  | .cls p, c :: rest => if p c then [rest] else []
  | .seq a b, s => (matchRests a s).flatMap (fun m => matchRests b m)
  | .alt a b, s => matchRests a s ++ matchRests b s
  | .star p, s => starRests p s

/-- re.match(e, s): e matches some prefix of s (anchored at the start only). -/
def reMatch (e : RE) (s : List Char) : Bool := !(matchRests e s).isEmpty

/-- The language of the regex fragment: Sem e t holds when e matches exactly
the text t. -/
inductive Sem : RE → List Char → Prop where
  | eps : Sem .eps []
  | cls {p : Char → Bool} {c : Char} : p c = true → Sem (.cls p) [c]
  | seq {a b : RE} {t u : List Char} : Sem a t → Sem b u → Sem (.seq a b) (t ++ u)
  | altL {a b : RE} {t : List Char} : Sem a t → Sem (.alt a b) t
  | altR {a b : RE} {t : List Char} : Sem b t → Sem (.alt a b) t
  | star {p : Char → Bool} {t : List Char} : (∀ c ∈ t, p c = true) → Sem (.star p) t

/-- Every character class of e is contained in the class P. -/
def clsBound (P : Char → Bool) : RE → Prop
  | .eps => True
  | .cls p => ∀ c, p c = true → P c = true
  | .seq a b => clsBound P a ∧ clsBound P b
  | .alt a b => clsBound P a ∧ clsBound P b
  | .star p => ∀ c, p c = true → P c = true

/-- A literal text as a regex (each character a singleton class), standing for
text interpolated verbatim into a pattern; faithful for metacharacter-free
text, which is the only kind the client interpolates (protocol tokens). -/
def litRE : List Char → RE
  | [] => .eps
  | c :: rest => .seq (.cls (fun d => d = c)) (litRE rest)

/-- A fixed-width lookbehind: pre ends with the text lb. -/
def lbHolds (lb pre : List Char) : Bool :=
  decide (lb.length ≤ pre.length) && decide (pre.drop (pre.length - lb.length) = lb)

/-- re.findall for the patterns of validate_network_address, which have the
shape lookbehind-text, body regex, lookahead predicate: the text of the first
match, scanning start positions left to right and, at each position, taking
the first body match (in backtracking preference order) whose rest satisfies
the lookahead. Only the first match is used by the source. -/
def findMatchText (lb : List Char) (e : RE) (la : List Char → Bool) (s : List Char) : Option (List Char) :=
  (List.range (s.length + 1)).findSome? (fun i =>
    if lbHolds lb (s.take i) then
      ((matchRests e (s.drop i)).find? la).map
        (fun rest => (s.drop i).take ((s.drop i).length - rest.length))
    else none)

/-- The octet alternation of the source's ip v4 pattern, in the source's
alternative order: 25[0-5], then 2[0-4][0-9], then [01]?[0-9][0-9]?. -/
def octetRE : RE :=
  .alt (.seq (.cls (fun c => c = '2')) (.seq (.cls (fun c => c = '5')) (.cls (fun c => '0' ≤ c && c ≤ '5'))))
    (.alt (.seq (.cls (fun c => c = '2')) (.seq (.cls (fun c => '0' ≤ c && c ≤ '4')) (.cls Char.isDigit)))
      (.seq (.alt (.cls (fun c => c = '0' || c = '1')) .eps)
        (.seq (.cls Char.isDigit) (.alt (.cls Char.isDigit) .eps))))

/-- The literal dot between octets. -/
def dotRE : RE := .cls (fun c => c = '.')

/-- The source's ip_pattern: four octets separated by dots (the counted group
unrolled). -/
def ipRE : RE :=
  .seq octetRE (.seq dotRE (.seq octetRE (.seq dotRE (.seq octetRE (.seq dotRE octetRE)))))

/-- The characters an ip pattern match can consume: digits and the period. -/
def digitDot (c : Char) : Bool := c.isDigit || c = '.'

/-- ASCII model of the regex word class backslash-w. -/
def wordChar (c : Char) : Bool := c.isAlphanum || c = '_'

/-- The source's hostname class: word characters, period and hyphen. -/
def hostChar (c : Char) : Bool := wordChar c || c = '.' || c = '-'

/-- The source's class of one character that is neither a digit nor a period. -/
def nonDigitDot (c : Char) : Bool := !(c.isDigit || c = '.')

/-- The source's hostname_pattern: hostChar star, one nonDigitDot character,
hostChar star. -/
def hostnameRE : RE :=
  .seq (.star hostChar) (.seq (.cls nonDigitDot) (.star hostChar))

/-- The source's port_pattern: a colon and four digits with an optional fifth
(greedy, so the fifth digit is preferred). -/
def portRE : RE :=
  .seq (.cls (fun c => c = ':')) (.seq (.cls Char.isDigit) (.seq (.cls Char.isDigit)
    (.seq (.cls Char.isDigit) (.seq (.cls Char.isDigit) (.alt (.cls Char.isDigit) .eps)))))

/-- The lookahead of the find patterns: a colon followed by at least four
digits (the five-digit case of the counted repetition adds no constraint to a
lookahead's satisfiability). -/
def portLA : List Char → Bool
  | c0 :: a :: b :: c :: d :: _ => c0 = ':' && a.isDigit && b.isDigit && c.isDigit && d.isDigit
  | _ => false

/-- Python str.split on a one-character separator. -/
def pySplit (sep : Char) : List Char → List (List Char)
  | [] => [[]]
  | c :: rest =>
    match pySplit sep rest with
    | [] => [[c]]
    | h :: t => if c = sep then [] :: h :: t else (c :: h) :: t

/-- The numeric value of a decimal digit string (Python int on the octet). -/
def decValue (g : List Char) : Nat :=
  g.foldl (fun n c => n * 10 + (c.toNat - '0'.toNat)) 0

/-- One octet as Python's ipaddress module accepts it: nonempty, all digits,
no leading zero except the single digit 0 itself (Python 3.9.5+), value at
most 255. -/
def canonOctet (g : List Char) : Bool :=
  decide (g ≠ []) && g.all Char.isDigit &&
    (decide (g.length = 1) || decide (g.head? ≠ some '0')) && decide (decValue g ≤ 255)

/-- Model of Python's ipaddress.ip_address acceptance on the dotted-decimal
texts extracted by the ip regular expression: four octets, each canonical. -/
def py_ip_valid (t : List Char) : Bool :=
  match pySplit '.' t with
  | [a, b, c, d] => canonOctet a && canonOctet b && canonOctet c && canonOctet d
  | _ => false

/-- Model of validate_ip_address from the source: parses the string with
Python's ipaddress.ip_address and returns its string form. On the dotted
decimal inputs that reach it here the string form equals the input, and the
ValueError text is abstracted to the offending input. -/
def validate_ip_address (ip_address : List Char) : Except (List Char) (List Char) :=
  if py_ip_valid ip_address = true then .ok ip_address else .error ip_address

/-- validate_network_address from the source: first the ip branch (find the ip
between the protocol lookbehind and the port lookahead; validate it, wrapping
a ValueError as PcoWarning; accept if the anchored composite pattern matches),
then the hostname branch, else None. The protocol text is interpolated
verbatim into the patterns. -/
def validate_network_address (network_address : List Char) (protocol : List Char) : Except PyExn (Option (List Char)) :=
  let protLit := protocol ++ ':' :: '/' :: '/' :: []
  let hostnameBranch : Except PyExn (Option (List Char)) :=
    if (findMatchText protLit hostnameRE portLA network_address).isSome then
      if reMatch (.seq (litRE protLit) (.seq hostnameRE portRE)) network_address then
        .ok (some network_address)
      else .ok none
    else .ok none
  match findMatchText protLit ipRE portLA network_address with
  | some ipText =>
    match validate_ip_address ipText with
    | .error msg => .error (.pcoWarning msg)
    | .ok _ =>
      if reMatch (.seq (litRE protLit) (.seq ipRE portRE)) network_address then
        .ok (some network_address)
      else hostnameBranch
  | none => hostnameBranch

/-- validate_connection_address from the source: a tcp network address, else a
PcoError naming the parameter (a falsy return, None or empty, raises). -/
def validate_connection_address (connection_address : List Char) (name : List Char) : Except PyExn (List Char) :=
  match validate_network_address connection_address ("tcp".data) with
  | .error e => .error e
  | .ok (some addr) =>
    if addr = [] then
      .error (.pcoError ("Problem with the ".data ++ name ++ ":\n  ".data ++ connection_address ++ " does not seem to be a valid address".data))
    else .ok addr
  | .ok none =>
    .error (.pcoError ("Problem with the ".data ++ name ++ ":\n  ".data ++ connection_address ++ " does not seem to be a valid address".data))

/-- validate_rest_api_address from the source: an http network address, else a
PcoWarning naming the parameter. -/
def validate_rest_api_address (rest_api_address : List Char) (name : List Char) : Except PyExn (List Char) :=
  match validate_network_address rest_api_address ("http".data) with
  | .error e => .error e
  | .ok (some addr) =>
    if addr = [] then
      .error (.pcoWarning ("Problem with the ".data ++ name ++ ":\n  ".data ++ rest_api_address ++ " does not seem to be a valid address.".data))
    else .ok addr
  | .ok none =>
    .error (.pcoWarning ("Problem with the ".data ++ name ++ ":\n  ".data ++ rest_api_address ++ " does not seem to be a valid address.".data))

/-- The character class of the source's output-file pattern. -/
def outfileClass (c : Char) : Bool :=
  c = '%' || c = '.' || c = '/' || c.isAlpha || c.isDigit || c = '_' || c = '-'

/-- Whether a string starts with the two characters h and 5. -/
def startsWithH5 : List Char → Bool
  | c1 :: c2 :: _ => c1 = 'h' && c2 = '5'
  | _ => false

/-- re.match of the source's output-file pattern, whose dot is unescaped (any
character except newline) and which is anchored at the start only: some prefix
of s consists of outfileClass characters, one non-newline character, then the
two characters h and 5. -/
def reMatchOutputFile : List Char → Bool
  | [] => false
  | c :: rest =>
    (decide (c ≠ '\n') && startsWithH5 rest) || (outfileClass c && reMatchOutputFile rest)

/-- validate_output_file from the source: home expansion (the os.path
expansion is a parameter of the embedding), then the prefix-anchored pattern
with the unescaped dot; a failure raises PcoWarning. -/
def validate_output_file (expand : List Char → List Char) (output_file : List Char) : Except PyExn (List Char) :=
  let o := expand output_file
  if reMatchOutputFile o then .ok o
  else .error (.pcoWarning ("Problem with the output file name".data))

/-- The output-file pattern as the specification words it: the whole expanded
path is outfileClass characters followed by a literal ".h5" suffix. -/
def specOutputFilePattern (s : List Char) : Bool :=
  decide (3 ≤ s.length) && decide (s.drop (s.length - 3) = '.' :: 'h' :: '5' :: []) &&
    (s.take (s.length - 3)).all outfileClass

/-- validate_dataset_name from the source: any nonempty string; empty raises a
PcoError naming the parameter. -/
def validate_dataset_name (dataset_name : List Char) (name : List Char) : Except PyExn (List Char) :=
  if dataset_name = [] then
    .error (.pcoError ("Problem with the ".data ++ name ++ " parameter: not a valid dataset name".data))
  else .ok dataset_name

/-- validate_nonneg_int_parameter from the source (the int coercion is the
identity on the embedded integers); a negative value raises a PcoWarning
naming the parameter. -/
def validate_nonneg_int_parameter (parameter_int : Int) (name : List Char) : Except PyExn Int :=
  if 0 ≤ parameter_int then .ok parameter_int
  else .error (.pcoWarning ("Problem with the ".data ++ name ++ " parameter: not a non-negative integer".data))

/-- insert_placeholder from the source: Python slicing string[:index] ++
"_%03d" ++ string[index:], with Python's negative-index slicing semantics. -/
def pySliceIndex (len : Nat) (i : Int) : Nat :=
  if i < 0 then len - (-i).toNat else min i.toNat len

/-- insert_placeholder from the source. -/
def insert_placeholder (string : List Char) (index : Int) : List Char :=
  string.take (pySliceIndex string.length index) ++ ('_' :: '%' :: '0' :: '3' :: 'd' :: []) ++
    string.drop (pySliceIndex string.length index)

/-- The tail of the placeholder-detection regex: a possibly empty digit run
followed by the character d. -/
def digitsThenD : List Char → Bool
  | [] => false
  | c :: rest => c = 'd' || (c.isDigit && digitsThenD rest)

/-- re.search of the source's placeholder-detection pattern (a percent sign,
any digits, then d) anywhere in the string. -/
def hasNumberPlaceholder : List Char → Bool
  | [] => false
  | c :: rest => (c = '%' && digitsThenD rest) || hasNumberPlaceholder rest

/-- A statistics record as kept by the client; its content is opaque to the
claims, only presence matters. -/
abbrev Stats := List (List Char × List Char)

/-- The mutable attributes of the main PcoWriter object
(pco_rclient/pco_client.py). -/
structure PcoWriter where
  output_file : List Char
  dataset_name : List Char
  n_frames : Int
  user_id : Int
  max_frames_per_file : Int
  connection_address : List Char
  flask_api_address : List Char
  writer_api_address : List Char
  status : List Char
  last_run_id : Int
  previous_statistics : Option Stats
deriving DecidableEq

/-- The fixed oracle for one client call: for each route, either a connection
failure (none), a JSON body missing the read key (some none), or the value of
the read key. expand is os.path.expanduser. -/
structure NetEnv where
  statusJson : Option (Option (List Char))
  killJson : Option (Option (List Char))
  startJson : Option (Option Bool)
  flushPackets : Nat
  expand : List Char → List Char

/-- The connection-failure message used throughout the main client. -/
def disconnectedMsg : List Char :=
  ("The writer server seems to be disconnected and is not responding.").data

/-- is_running from the main client: the status route's status field is
receiving or writing; a connection failure raises PcoError. -/
def is_running (env : NetEnv) (s : PcoWriter) : PyResult PcoWriter Bool :=
  match env.statusJson with
  | none => .exn s (.pcoError disconnectedMsg)
  | some none => .exn s .keyError
  | some (some st) => .ok s (st = "receiving".data || st = "writing".data)

/-- get_status_writer from the main client: the status route's status field;
a connection failure raises PcoError. -/
def get_status_writer (env : NetEnv) (s : PcoWriter) : PyResult PcoWriter (List Char) :=
  match env.statusJson with
  | none => .exn s (.pcoError disconnectedMsg)
  | some none => .exn s .keyError
  | some (some st) => .ok s st

/-- get_status from the main client: live writer status while running (kept
local during stopping and killing), a refresh when the last known status was a
running one, otherwise the local status. -/
def get_status (env : NetEnv) (s : PcoWriter) : PyResult PcoWriter (List Char) :=
  match is_running env s with
  | .exn s1 e => .exn s1 e
  | .ok s1 true =>
    if s1.status ≠ "stopping".data ∧ s1.status ≠ "killing".data then
      match get_status_writer env s1 with
      | .exn s2 e => .exn s2 e
      | .ok s2 st => .ok {s2 with status := st} st
    else .ok s1 s1.status
  | .ok s1 false =>
    if s1.status = "receiving".data ∨ s1.status = "writing".data then
      match get_status_writer env s1 with
      | .exn s2 e => .exn s2 e
      | .ok s2 st => .ok {s2 with status := st} st
    else .ok s1 s1.status

/-- kill from the main client: when running, set status to killing and call
the kill route (the response's status field is only printed; a missing field
raises KeyError, a connection failure PcoError); in every non-raising path the
status is refreshed with get_status, and the raw response is returned (none
stands for the initial response value 0). -/
def kill (env : NetEnv) (s : PcoWriter) : PyResult PcoWriter (Option (List Char)) :=
  match is_running env s with
  | .exn s1 e => .exn s1 e
  | .ok s1 running =>
    match (if running then
            match env.killJson with
            | none => PyResult.exn {s1 with status := "killing".data} (.pcoError disconnectedMsg)
            | some none => PyResult.exn {s1 with status := "killing".data} PyExn.keyError
            | some (some kv) => PyResult.ok {s1 with status := "killing".data} (some kv)
          else PyResult.ok s1 none) with
    | .exn s2 e => .exn s2 e
    | .ok s2 resp =>
      match get_status env s2 with
      | .exn s3 e => .exn s3 e
      | .ok s3 st => .ok {s3 with status := st} resp

/-- flush_cam_stream from the main client: a no-op returning None while a
writer is running, otherwise it drains the stream and returns the number of
consumed packets (the count is the oracle's; the keyboard-interrupt exit is
not modelled). -/
def flush_cam_stream (env : NetEnv) (s : PcoWriter) : PyResult PcoWriter (Option Nat) :=
  match is_running env s with
  | .exn s1 e => .exn s1 e
  | .ok s1 true => .ok s1 none
  | .ok s1 false => .ok s1 (some env.flushPackets)

/-- validate_configuration from the main client: each field must equal its own
validation (an exception from a validator makes the assertion block fail). -/
def validate_configuration (expand : List Char → List Char) (s : PcoWriter) : Bool :=
  decide (validate_output_file expand s.output_file = .ok s.output_file) &&
  decide (validate_dataset_name s.dataset_name ("dataset_name".data) = .ok s.dataset_name) &&
  decide (validate_nonneg_int_parameter s.n_frames ("n_frames".data) = .ok s.n_frames) &&
  decide (validate_nonneg_int_parameter s.user_id ("user_id".data) = .ok s.user_id) &&
  decide (validate_nonneg_int_parameter s.max_frames_per_file ("max_frames_per_file".data) = .ok s.max_frames_per_file) &&
  decide (validate_connection_address s.connection_address ("connection_address".data) = .ok s.connection_address)

/-- reset from the main client: kill, flush the stream, clear the run counter
and the cached statistics, and recompute the status from the configuration's
validity. -/
def reset (env : NetEnv) (s : PcoWriter) : PyResult PcoWriter (List Char) :=
  match kill env s with
  | .exn s1 e => .exn s1 e
  | .ok s1 _ =>
    match flush_cam_stream env s1 with
    | .exn s2 e => .exn s2 e
    | .ok s2 _ =>
      let s3 : PcoWriter :=
        {s2 with last_run_id := 0, previous_statistics := none,
                 status := if validate_configuration env.expand s2 then "configured".data else "unconfigured".data}
      .ok s3 s3.status

/-- assert_filenumber_placeholder from the main client: when the frame total
reaches the per-file maximum and no placeholder is present, insert the
placeholder text before the final three characters. -/
def assert_filenumber_placeholder (s : PcoWriter) : PcoWriter :=
  if s.max_frames_per_file ≤ s.n_frames then
    if hasNumberPlaceholder s.output_file then s
    else {s with output_file := insert_placeholder s.output_file ((s.output_file.length : Int) - 3)}
  else s

/-- Python str of an embedded integer. -/
def intToDecimal (n : Int) : List Char :=
  if n < 0 then '-' :: Nat.toDigits 10 n.natAbs else Nat.toDigits 10 n.toNat

/-- The configuration dictionary built by get_configuration. -/
structure ConfDict where
  connection_address : List Char
  output_file : List Char
  n_frames : List Char
  user_id : List Char
  dataset_name : List Char
  max_frames_per_file : List Char
  rest_api_port : List Char
  n_modules : List Char
  writer_rest_port : List Char
  flask_api_address : List Char
deriving DecidableEq

/-- get_configuration from the main client; the ports are the third
colon-separated component of the api addresses, and a missing component
raises IndexError (none). -/
def get_configuration (s : PcoWriter) : Option ConfDict :=
  match (pySplit ':' s.flask_api_address).get? 2, (pySplit ':' s.writer_api_address).get? 2 with
  | some restPort, some writerPort =>
    some { connection_address := s.connection_address, output_file := s.output_file,
           n_frames := intToDecimal s.n_frames, user_id := intToDecimal s.user_id,
           dataset_name := s.dataset_name, max_frames_per_file := intToDecimal s.max_frames_per_file,
           rest_api_port := restPort, n_modules := "1".data,
           writer_rest_port := writerPort, flask_api_address := s.flask_api_address }
  | _, _ => none

/-- The keyword arguments of configure; none stands for an omitted argument. -/
structure ConfArgs where
  output_file : Option (List Char)
  dataset_name : Option (List Char)
  n_frames : Option Int
  user_id : Option Int
  max_frames_per_file : Option Int
  connection_address : Option (List Char)
deriving DecidableEq

/-- The output_file assignment of configure. -/
def step_output_file (expand : List Char → List Char) (a : ConfArgs) (s : PcoWriter) : PyResult PcoWriter Unit :=
  match a.output_file with
  | none => .ok s ()
  | some v =>
    match validate_output_file expand v with
    | .ok o => .ok {s with output_file := o} ()
    | .error e => .exn s e

/-- The dataset_name assignment of configure. -/
def step_dataset_name (a : ConfArgs) (s : PcoWriter) : PyResult PcoWriter Unit :=
  match a.dataset_name with
  | none => .ok s ()
  | some v =>
    match validate_dataset_name v ("dataset_name".data) with
    | .ok d => .ok {s with dataset_name := d} ()
    | .error e => .exn s e

/-- The n_frames assignment of configure. -/
def step_n_frames (a : ConfArgs) (s : PcoWriter) : PyResult PcoWriter Unit :=
  match a.n_frames with
  | none => .ok s ()
  | some v =>
    match validate_nonneg_int_parameter v ("n_frames".data) with
    | .ok n => .ok {s with n_frames := n} ()
    | .error e => .exn s e

/-- The user_id assignment of configure. -/
def step_user_id (a : ConfArgs) (s : PcoWriter) : PyResult PcoWriter Unit :=
  match a.user_id with
  | none => .ok s ()
  | some v =>
    match validate_nonneg_int_parameter v ("user_id".data) with
    | .ok n => .ok {s with user_id := n} ()
    | .error e => .exn s e

/-- The max_frames_per_file assignment of configure. -/
def step_max_frames_per_file (a : ConfArgs) (s : PcoWriter) : PyResult PcoWriter Unit :=
  match a.max_frames_per_file with
  | none => .ok s ()
  | some v =>
    match validate_nonneg_int_parameter v ("max_frames_per_file".data) with
    | .ok n => .ok {s with max_frames_per_file := n} ()
    | .error e => .exn s e

/-- The connection_address assignment of configure. -/
def step_connection_address (a : ConfArgs) (s : PcoWriter) : PyResult PcoWriter Unit :=
  match a.connection_address with
  | none => .ok s ()
  | some v =>
    match validate_connection_address v ("connection_address".data) with
    | .ok c => .ok {s with connection_address := c} ()
    | .error e => .exn s e

/-- configure from the main client: a no-op returning None while the writer is
running; otherwise each supplied argument is validated and assigned in the
source's order, then on a valid full configuration the placeholder is asserted
and the status set to configured, and the configuration dictionary is
returned. -/
def configure (env : NetEnv) (a : ConfArgs) (s : PcoWriter) : PyResult PcoWriter (Option ConfDict) :=
  match is_running env s with
  | .exn s1 e => .exn s1 e
  | .ok s1 true => .ok s1 none
  | .ok s1 false =>
    match step_output_file env.expand a s1 with
    | .exn s2 e => .exn s2 e
    | .ok s2 _ =>
      match step_dataset_name a s2 with
      | .exn s3 e => .exn s3 e
      | .ok s3 _ =>
        match step_n_frames a s3 with
        | .exn s4 e => .exn s4 e
        | .ok s4 _ =>
          match step_user_id a s4 with
          | .exn s5 e => .exn s5 e
          | .ok s5 _ =>
            match step_max_frames_per_file a s5 with
            | .exn s6 e => .exn s6 e
            | .ok s6 _ =>
              match step_connection_address a s6 with
              | .exn s7 e => .exn s7 e
              | .ok s7 _ =>
                let s8 := if validate_configuration env.expand s7 then
                    {assert_filenumber_placeholder s7 with status := "configured".data}
                  else s7
                match get_configuration s8 with
                | some d => .ok s8 (some d)
                | none => .exn s8 .indexError

/-- The invalid-configuration message of start. -/
def notConfiguredMsg : List Char :=
  ("PCO writer is not properly configured! Please configure the writer by calling the configure() command before you start()").data

/-- The outcome of start: the object state, the exception or the success flag
of the response, and whether any HTTP request was issued during the call. -/
inductive StartOut where
  | exn (s : PcoWriter) (e : PyExn) (httpIssued : Bool)
  | ok (s : PcoWriter) (success : Bool) (httpIssued : Bool)
deriving DecidableEq

/-- start from the main client: an invalid configuration raises PcoError
before any request; when already running the response stays the integer 0 and
the later membership test on it raises TypeError; otherwise status is set to
starting, the configuration is serialized (IndexError propagates), the start
route is posted (connection failure raises PcoError, a response without the
success field raises KeyError), a successful response increments last_run_id,
the optional poll loop leaves the state unchanged under a fixed oracle, and
the status is refreshed with get_status. -/
def start (env : NetEnv) (wait : Bool) (s : PcoWriter) : StartOut :=
  if validate_configuration env.expand s = false then
    .exn s (.pcoError notConfiguredMsg) false
  else
    match is_running env s with
    | .exn s1 e => .exn s1 e true
    | .ok s1 true => .exn s1 .typeError true
    | .ok s1 false =>
      let s2 : PcoWriter := {s1 with status := "starting".data}
      match get_configuration s2 with
      | none => .exn s2 .indexError true
      | some _ =>
        match env.startJson with
        | none => .exn s2 (.pcoError disconnectedMsg) true
        | some none => .exn s2 .keyError true
        | some (some b) =>
          let s3 := if b then {s2 with last_run_id := s2.last_run_id + 1} else s2
          match get_status env s3 with
          | .exn s4 e => .exn s4 e true
          | .ok s4 st => .ok {s4 with status := st} b true

/-- The mutable attributes of the legacy client
(pco_rclient/client/pco_client.py) that its kill, get_status and is_running
touch or read. -/
structure CState where
  status : List Char
  configured : Bool
  last_run_id : Int
  last_run_json : Option (List (List Char × List Char))
deriving DecidableEq

/-- One route response of the legacy client's oracle: a connection (or other
request) failure, a JSON body missing the read key, a builtin TimeoutError,
or the value of the read key. -/
inductive CHttpResp where
  | connError
  | keyMissing
  | timeout
  | value (v : List Char)
deriving DecidableEq

/-- The fixed oracle of the legacy client. -/
structure CEnv where
  statusResp : CHttpResp
  killResp : CHttpResp
  finishedJson : Option (List (List Char × List Char))
deriving DecidableEq

/-- Python dict lookup on an embedded JSON object. -/
def jlookup (k : List Char) (o : List (List Char × List Char)) : Option (List Char) :=
  (o.find? (fun p => p.1 = k)).map (fun p => p.2)

/-- is_running from the legacy client: the status route's value field is
receiving or writing; the bare except turns every failure into False. -/
def client_is_running (env : CEnv) : Bool :=
  match env.statusResp with
  | .value v => v = "receiving".data || v = "writing".data
  | _ => false

/-- The abstracted message text of an exception the legacy client wraps into
PcoError. -/
def cRespErrText : CHttpResp → List Char
  | .connError => "ConnectionError".data
  | .keyMissing => "KeyError".data
  | .timeout => "TimeoutError".data
  | .value _ => []

/-- get_current_status from the legacy client: the status route's value field;
a builtin TimeoutError returns None, every other failure is wrapped into a
raised PcoError. -/
def client_get_current_status (env : CEnv) (s : CState) : PyResult CState (Option (List Char)) :=
  match env.statusResp with
  | .timeout => .ok s none
  | .value v => .ok s (some v)
  | .connError => .exn s (.pcoError (cRespErrText .connError))
  | .keyMissing => .exn s (.pcoError (cRespErrText .keyMissing))

/-- get_previous_status from the legacy client: stores the finished route's
body in last_run_json, then reads its value field; any failure yields the
status unknown (the body, when obtained, stays stored). -/
def client_get_previous_status (env : CEnv) (s : CState) : CState × List Char :=
  match env.finishedJson with
  | some j =>
    ({s with last_run_json := some j},
     match jlookup ("value".data) j with
     | some v => v
     | none => "unknown".data)
  | none => (s, "unknown".data)

/-- get_status from the legacy client: the live status when one is available;
on None the local status while not yet run, else the previous-run status when
a run happened, else unknown. -/
def client_get_status (env : CEnv) (s : CState) : PyResult CState (List Char) :=
  match client_get_current_status env s with
  | .exn s1 e => .exn s1 e
  | .ok s1 (some v) => .ok s1 v
  | .ok s1 none =>
    if s1.status = "initialized".data ∨ s1.status = "configured".data ∨ s1.status = "starting".data then
      .ok s1 s1.status
    else if 0 < s1.last_run_id then
      match client_get_previous_status env s1 with
      | (s2, st) => .ok s2 st
    else .ok s1 "unknown".data

/-- kill from the legacy client: a pure no-op when not running; otherwise set
status to killing, call the kill route, and on the acknowledged response
status killed set status to finished and configured to False, then refresh the
status; any exception inside the block is re-raised as PcoError (the re-wrap
keeps the underlying exception here). -/
def client_kill (env : CEnv) (s : CState) : PyResult CState Unit :=
  if client_is_running env then
    let s1 : CState := {s with status := "killing".data}
    match env.killResp with
    | .value kv =>
      let s2 := if kv = "killed".data then {s1 with status := "finished".data, configured := false} else s1
      match client_get_status env s2 with
      | .exn s3 e => .exn s3 e
      | .ok s3 st => .ok {s3 with status := st} ()
    | .connError => .exn s1 (.pcoError (cRespErrText .connError))
    | .keyMissing => .exn s1 (.pcoError (cRespErrText .keyMissing))
    | .timeout => .exn s1 (.pcoError (cRespErrText .timeout))
  else .ok s ()

/-- A concrete idle oracle: the writer reports finished, the identity home
expansion. -/
def envIdle : NetEnv :=
  { statusJson := some (some ("finished".data)), killJson := some (some ("killed".data)),
    startJson := some (some true), flushPackets := 0, expand := fun p => p }

/-- A concrete running oracle: the writer reports writing. -/
def envBusy : NetEnv :=
  { statusJson := some (some ("writing".data)), killJson := some (some ("killed".data)),
    startJson := some (some true), flushPackets := 0, expand := fun p => p }

/-- A concrete, fully valid client state. -/
def sOk : PcoWriter :=
  { output_file := "/tmp/out.h5".data, dataset_name := "data".data, n_frames := 0, user_id := 0,
    max_frames_per_file := 20000, connection_address := "tcp://10.10.1.26:8080".data,
    flask_api_address := "http://xbl-daq-34:9901".data, writer_api_address := "http://xbl-daq-34:9555".data,
    status := "configured".data, last_run_id := 0, previous_statistics := none }

/-- A concrete invalid client state: its dataset name is empty. -/
def sBad : PcoWriter :=
  { output_file := "/tmp/out.h5".data, dataset_name := [], n_frames := 0, user_id := 0,
    max_frames_per_file := 20000, connection_address := "tcp://10.10.1.26:8080".data,
    flask_api_address := "http://xbl-daq-34:9901".data, writer_api_address := "http://xbl-daq-34:9555".data,
    status := "unconfigured".data, last_run_id := 0, previous_statistics := none }

/-- The configure arguments of the specification's example: ten frames per
file, twenty frames in total. -/
def cArgsA : ConfArgs :=
  { output_file := some ("/a/b.h5".data), dataset_name := none, n_frames := some 20,
    user_id := none, max_frames_per_file := some 10, connection_address := none }

/-- The configure arguments of the specification's example with five frames. -/
def cArgsB : ConfArgs :=
  { output_file := some ("/a/b.h5".data), dataset_name := none, n_frames := some 5,
    user_id := none, max_frames_per_file := some 10, connection_address := none }

/-- configure arguments with a valid output file followed by an invalid
(empty) dataset name. -/
def cArgsBadDs : ConfArgs :=
  { output_file := some ("/a/b.h5".data), dataset_name := some [], n_frames := none,
    user_id := none, max_frames_per_file := none, connection_address := none }

/-- A placeholder search succeeds on any extension to the right of a string it
succeeds on. -/
theorem hasNumberPlaceholder_append_right {xs ys : List Char}
    (h : hasNumberPlaceholder ys = true) : hasNumberPlaceholder (xs ++ ys) = true := by
  induction xs with
  | nil => simpa using h
  | cons c rest ih => simp [hasNumberPlaceholder, ih]

/-- The inserted placeholder text itself is found by the placeholder search. -/
theorem hasNumberPlaceholder_inserted (b : List Char) :
    hasNumberPlaceholder ('_' :: '%' :: '0' :: '3' :: 'd' :: b) = true := by
  simp +decide [hasNumberPlaceholder, digitsThenD]

/-- The result of insert_placeholder always contains a placeholder. -/
theorem hasNumberPlaceholder_insert_placeholder (s : List Char) (i : Int) :
    hasNumberPlaceholder (insert_placeholder s i) = true := by
  unfold insert_placeholder
  rw [List.append_assoc]
  exact hasNumberPlaceholder_append_right (hasNumberPlaceholder_inserted _)

/-- Claim C10: assert_filenumber_placeholder is idempotent, because the
inserted placeholder text itself matches the placeholder-detection pattern, so
a second application never inserts another placeholder. -/
theorem spec_c10 (s : PcoWriter) :
    assert_filenumber_placeholder (assert_filenumber_placeholder s) = assert_filenumber_placeholder s := by
  unfold assert_filenumber_placeholder
  by_cases h1 : s.max_frames_per_file ≤ s.n_frames
  · by_cases h2 : hasNumberPlaceholder s.output_file
    · simp [h1, h2]
    · simp [h1, h2, hasNumberPlaceholder_insert_placeholder]
  · simp [h1]

/-- Claim C1: when the frame total reaches the per-file maximum and no
placeholder is present, applying the configuration inserts the zero-padded
placeholder before the final three characters of the output file; when the
maximum exceeds the total or a placeholder is present, the output file is
unchanged; and the specification's two configure examples behave as stated. -/
theorem spec_c1 :
    (∀ (s : PcoWriter) (pre : List Char), s.max_frames_per_file ≤ s.n_frames →
       hasNumberPlaceholder s.output_file = false →
       s.output_file = pre ++ '.' :: 'h' :: '5' :: [] →
       (assert_filenumber_placeholder s).output_file =
         pre ++ '_' :: '%' :: '0' :: '3' :: 'd' :: '.' :: 'h' :: '5' :: []) ∧
    (∀ s : PcoWriter, (s.n_frames < s.max_frames_per_file ∨ hasNumberPlaceholder s.output_file = true) →
       assert_filenumber_placeholder s = s) ∧
    pyOk (configure envIdle cArgsA sOk) = true ∧
    (pyState (configure envIdle cArgsA sOk)).output_file = "/a/b_%03d.h5".data ∧
    pyOk (configure envIdle cArgsB sOk) = true ∧
    (pyState (configure envIdle cArgsB sOk)).output_file = "/a/b.h5".data := by
  refine ⟨?_, ?_, by decide, by decide, by decide, by decide⟩
  · intro s pre hle hph hout
    unfold assert_filenumber_placeholder
    rw [if_pos hle, hph]
    simp only [Bool.false_eq_true, if_false]
    unfold insert_placeholder
    rw [hout]
    have hlen : (pre ++ '.' :: 'h' :: '5' :: []).length = pre.length + 3 := by simp
    rw [hlen]
    have hidx : pySliceIndex (pre.length + 3) (((pre.length + 3 : Nat) : Int) - 3) = pre.length := by
      unfold pySliceIndex
      split
      · omega
      · omega
    rw [hidx]
    have h1 : (pre ++ '.' :: 'h' :: '5' :: []).take pre.length = pre := List.take_left pre _
    have h2 : (pre ++ '.' :: 'h' :: '5' :: []).drop pre.length = '.' :: 'h' :: '5' :: [] :=
      List.drop_left pre _
    rw [h1, h2]
    simp
  · intro s h
    unfold assert_filenumber_placeholder
    rcases h with h | h
    · rw [if_neg (by omega)]
    · by_cases hle : s.max_frames_per_file ≤ s.n_frames
      · rw [if_pos hle, h]; simp
      · rw [if_neg hle]

/-- The configuration's validity does not depend on status, run counter or
cached statistics. -/
theorem validate_configuration_update (expand : List Char → List Char) (s : PcoWriter)
    (st : List Char) (lri : Int) (ps : Option Stats) :
    validate_configuration expand {s with status := st, last_run_id := lri, previous_statistics := ps} =
      validate_configuration expand s := rfl

/-- Claim C2: whenever reset returns, the status is configured exactly when
the retained configuration is valid, the run counter is zero and the cached
statistics are cleared. -/
theorem spec_c2 (env : NetEnv) (s s' : PcoWriter) (r : List Char)
    (h : reset env s = .ok s' r) :
    s'.status = (if validate_configuration env.expand s' = true then "configured".data else "unconfigured".data) ∧
    s'.last_run_id = 0 ∧ s'.previous_statistics = none := by
  unfold reset at h
  split at h
  · simp at h
  · split at h
    · simp at h
    · simp only [PyResult.ok.injEq] at h
      obtain ⟨hs, -⟩ := h
      subst hs
      exact ⟨rfl, rfl, rfl⟩

/-- Witness for C2 at a concrete idle oracle and a concrete valid state. -/
theorem spec_c2_witness :
    reset envIdle sOk = .ok sOk ("configured".data) ∧
    (sOk.status = (if validate_configuration envIdle.expand sOk = true then "configured".data else "unconfigured".data) ∧
     sOk.last_run_id = 0 ∧ sOk.previous_statistics = none) :=
  ⟨by decide, spec_c2 envIdle sOk sOk ("configured".data) (by decide)⟩

/-- Claim C5: start on an invalid configuration raises the invalid
configuration PcoError with no HTTP request issued and the object state, its
run counter, status and configuration fields included, unchanged. -/
theorem spec_c5 (env : NetEnv) (w : Bool) (s : PcoWriter)
    (h : validate_configuration env.expand s = false) :
    start env w s = .exn s (.pcoError notConfiguredMsg) false := by
  unfold start
  rw [if_pos h]

/-- Witness for C5 at a concrete invalid state. -/
theorem spec_c5_witness :
    validate_configuration envIdle.expand sBad = false ∧
    start envIdle true sBad = .exn sBad (.pcoError notConfiguredMsg) false :=
  ⟨by decide, spec_c5 envIdle true sBad (by decide)⟩

/-- Claim C6: while the writer reports running, configure returns None and
leaves the whole client state, every configuration field and the status
included, unchanged. -/
theorem spec_c6 (env : NetEnv) (a : ConfArgs) (s : PcoWriter)
    (h : is_running env s = .ok s true) :
    configure env a s = .ok s none := by
  unfold configure
  rw [h]

/-- Witness for C6 at a concrete running oracle. -/
theorem spec_c6_witness :
    is_running envBusy sOk = .ok sOk true ∧ configure envBusy cArgsA sOk = .ok sOk none :=
  ⟨by decide, spec_c6 envBusy cArgsA sOk (by decide)⟩

/-- Claim C7: is_running is true exactly when the status route reports
receiving or writing, and a connection failure raises the PcoError rather than
returning false. -/
theorem spec_c7 :
    (∀ (env : NetEnv) (s : PcoWriter) (st : List Char),
       env.statusJson = some (some st) →
       is_running env s = .ok s (st = "receiving".data || st = "writing".data)) ∧
    (∀ (env : NetEnv) (s : PcoWriter), env.statusJson = none →
       is_running env s = .exn s (.pcoError disconnectedMsg)) := by
  constructor
  · intro env s st h
    unfold is_running
    rw [h]
  · intro env s h
    unfold is_running
    rw [h]

/-- The legacy client's get_previous_status never changes the configured
flag. -/
theorem client_get_previous_status_configured (env : CEnv) (s : CState) :
    (client_get_previous_status env s).1.configured = s.configured := by
  unfold client_get_previous_status
  cases env.finishedJson <;> rfl

/-- The legacy client's get_status never changes the configured flag. -/
theorem client_get_status_configured (env : CEnv) (s : CState) :
    (pyState (client_get_status env s)).configured = s.configured := by
  unfold client_get_status client_get_current_status
  cases env.statusResp with
  | connError => rfl
  | keyMissing => rfl
  | value v => rfl
  | timeout =>
    simp only []
    split
    · rfl
    · split
      · have hcfg := client_get_previous_status_configured env s
        cases hprev : client_get_previous_status env s with
        | mk s2 st =>
          rw [hprev] at hcfg
          simpa [pyState] using hcfg
      · rfl

/-- Claim C8: the legacy client's kill is a pure no-op when the writer is not
running, and otherwise, on the acknowledged kill response status killed, the
object's configured flag is false afterwards, whether the final status refresh
returns or raises. -/
theorem spec_c8 :
    (∀ (env : CEnv) (s : CState), client_is_running env = false → client_kill env s = .ok s ()) ∧
    (∀ (env : CEnv) (s : CState), client_is_running env = true → env.killResp = .value ("killed".data) →
       (pyState (client_kill env s)).configured = false) := by
  constructor
  · intro env s h
    unfold client_kill
    rw [h]
    simp
  · intro env s h hkv
    unfold client_kill
    rw [h, hkv]
    simp only [if_true]
    have hconf := client_get_status_configured env
      {s with status := "finished".data, configured := false}
    cases hres : client_get_status env {s with status := "finished".data, configured := false} with
    | exn s3 e =>
      rw [hres] at hconf
      simpa [pyState] using hconf
    | ok s3 st =>
      rw [hres] at hconf
      simpa [pyState] using hconf

/-- Claim C9: configure applies the supplied fields in the fixed source order
and is not atomic on validation error: when a validator raises, the exception
propagates and the state already holds every earlier assignment. Each conjunct
chains the successful earlier assignment steps and a failing step; the last
conjunct shows a concrete run in which the new output file is kept while the
empty dataset name raises. -/
theorem spec_c9 :
    (∀ (env : NetEnv) (a : ConfArgs) (s s1 : PcoWriter) (e : PyExn),
       is_running env s = .ok s1 false →
       step_output_file env.expand a s1 = .exn s1 e →
       configure env a s = .exn s1 e) ∧
    (∀ (env : NetEnv) (a : ConfArgs) (s s1 s2 : PcoWriter) (e : PyExn),
       is_running env s = .ok s1 false →
       step_output_file env.expand a s1 = .ok s2 () →
       step_dataset_name a s2 = .exn s2 e →
       configure env a s = .exn s2 e) ∧
    (∀ (env : NetEnv) (a : ConfArgs) (s s1 s2 s3 : PcoWriter) (e : PyExn),
       is_running env s = .ok s1 false →
       step_output_file env.expand a s1 = .ok s2 () →
       step_dataset_name a s2 = .ok s3 () →
       step_n_frames a s3 = .exn s3 e →
       configure env a s = .exn s3 e) ∧
    (∀ (env : NetEnv) (a : ConfArgs) (s s1 s2 s3 s4 : PcoWriter) (e : PyExn),
       is_running env s = .ok s1 false →
       step_output_file env.expand a s1 = .ok s2 () →
       step_dataset_name a s2 = .ok s3 () →
       step_n_frames a s3 = .ok s4 () →
       step_user_id a s4 = .exn s4 e →
       configure env a s = .exn s4 e) ∧
    (∀ (env : NetEnv) (a : ConfArgs) (s s1 s2 s3 s4 s5 : PcoWriter) (e : PyExn),
       is_running env s = .ok s1 false →
       step_output_file env.expand a s1 = .ok s2 () →
       step_dataset_name a s2 = .ok s3 () →
       step_n_frames a s3 = .ok s4 () →
       step_user_id a s4 = .ok s5 () →
       step_max_frames_per_file a s5 = .exn s5 e →
       configure env a s = .exn s5 e) ∧
    (∀ (env : NetEnv) (a : ConfArgs) (s s1 s2 s3 s4 s5 s6 : PcoWriter) (e : PyExn),
       is_running env s = .ok s1 false →
       step_output_file env.expand a s1 = .ok s2 () →
       step_dataset_name a s2 = .ok s3 () →
       step_n_frames a s3 = .ok s4 () →
       step_user_id a s4 = .ok s5 () →
       step_max_frames_per_file a s5 = .ok s6 () →
       step_connection_address a s6 = .exn s6 e →
       configure env a s = .exn s6 e) ∧
    configure envIdle cArgsBadDs sOk =
      .exn {sOk with output_file := "/a/b.h5".data}
        (.pcoError ("Problem with the dataset_name parameter: not a valid dataset name".data)) := by
  refine ⟨?_, ?_, ?_, ?_, ?_, ?_, by decide⟩
  · intro env a s s1 e h0 h1
    unfold configure
    simp only [h0, h1]
  · intro env a s s1 s2 e h0 h1 h2
    unfold configure
    simp only [h0, h1, h2]
  · intro env a s s1 s2 s3 e h0 h1 h2 h3
    unfold configure
    simp only [h0, h1, h2, h3]
  · intro env a s s1 s2 s3 s4 e h0 h1 h2 h3 h4
    unfold configure
    simp only [h0, h1, h2, h3, h4]
  · intro env a s s1 s2 s3 s4 s5 e h0 h1 h2 h3 h4 h5
    unfold configure
    simp only [h0, h1, h2, h3, h4, h5]
  · intro env a s s1 s2 s3 s4 s5 s6 e h0 h1 h2 h3 h4 h5 h6
    unfold configure
    simp only [h0, h1, h2, h3, h4, h5, h6]

/-- startsWithH5 succeeds exactly on strings starting with the characters h
and 5. -/
theorem startsWithH5_iff (l : List Char) :
    startsWithH5 l = true ↔ ∃ t, l = 'h' :: '5' :: t := by
  constructor
  · intro h
    rcases l with _ | ⟨c1, _ | ⟨c2, t⟩⟩
    · exact absurd h (by simp [startsWithH5])
    · exact absurd h (by simp [startsWithH5])
    · simp only [startsWithH5, Bool.and_eq_true, decide_eq_true_eq] at h
      obtain ⟨rfl, rfl⟩ := h
      exact ⟨t, rfl⟩
  · rintro ⟨t, rfl⟩
    simp [startsWithH5]

/-- The output-file pattern's prefix match holds exactly when some prefix is
class characters, one non-newline character, then h and 5. -/
theorem reMatchOutputFile_iff (s : List Char) :
    reMatchOutputFile s = true ↔
      ∃ pre c suf, s = pre ++ c :: 'h' :: '5' :: suf ∧
        (∀ x ∈ pre, outfileClass x = true) ∧ c ≠ '\n' := by
  induction s with
  | nil =>
    simp only [reMatchOutputFile]
    constructor
    · intro h; exact absurd h (by simp)
    · rintro ⟨pre, c, suf, h, -, -⟩
      exact absurd h (by simp)
  | cons a rest ih =>
    simp only [reMatchOutputFile, Bool.or_eq_true, Bool.and_eq_true, decide_eq_true_eq]
    constructor
    · rintro (⟨hna, h5⟩ | ⟨hcls, hrec⟩)
      · obtain ⟨t, rfl⟩ := (startsWithH5_iff rest).mp h5
        exact ⟨[], a, t, rfl, by simp, hna⟩
      · obtain ⟨pre, c, suf, rfl, hpre, hc⟩ := ih.mp hrec
        refine ⟨a :: pre, c, suf, rfl, ?_, hc⟩
        intro x hx
        rcases List.mem_cons.mp hx with rfl | hx
        · exact hcls
        · exact hpre x hx
    · rintro ⟨pre, c, suf, heq, hpre, hc⟩
      cases pre with
      | nil =>
        simp only [List.nil_append, List.cons.injEq] at heq
        obtain ⟨rfl, rfl⟩ := heq
        exact Or.inl ⟨hc, (startsWithH5_iff _).mpr ⟨suf, rfl⟩⟩
      | cons p pre' =>
        simp only [List.cons_append, List.cons.injEq] at heq
        obtain ⟨rfl, heq⟩ := heq
        refine Or.inr ⟨hpre a (by simp), ih.mpr ⟨pre', c, suf, heq, ?_, hc⟩⟩
        intro x hx
        exact hpre x (List.mem_cons_of_mem _ hx)

/-- Counterexample to claim C4 as stated: the path /tmp/x.h5.txt does not
match the specification's pattern (the whole name ending in .h5), yet
validate_output_file accepts it, because the source's pattern has an unescaped
dot and re.match anchors only the start of the string. -/
theorem spec_c4_counterexample :
    validate_output_file (fun p => p) ("/tmp/x.h5.txt".data) = .ok ("/tmp/x.h5.txt".data) ∧
    specOutputFilePattern ("/tmp/x.h5.txt".data) = false := by
  decide

/-- Claim C4 as amended: validate_output_file succeeds, returning the expanded
path, exactly when the expanded path has a prefix of class characters followed
by one non-newline character and then h5 (the source's dot is unescaped and
re.match is anchored at the start only); every failure raises the PcoWarning;
and the specification's two examples behave as stated. -/
theorem spec_c4 :
    (∀ (expand : List Char → List Char) (path : List Char),
       validate_output_file expand path = .ok (expand path) ↔
         ∃ pre c suf, expand path = pre ++ c :: 'h' :: '5' :: suf ∧
           (∀ x ∈ pre, outfileClass x = true) ∧ c ≠ '\n') ∧
    (∀ (expand : List Char → List Char) (path : List Char) (e : PyExn),
       validate_output_file expand path = .error e →
         e = .pcoWarning ("Problem with the output file name".data)) ∧
    validate_output_file (fun p => p) ("/tmp/x.h5".data) = .ok ("/tmp/x.h5".data) ∧
    validate_output_file (fun p => p) ("/tmp/x.txt".data) =
      .error (.pcoWarning ("Problem with the output file name".data)) := by
  refine ⟨?_, ?_, by decide, by decide⟩
  · intro expand path
    unfold validate_output_file
    rw [← reMatchOutputFile_iff]
    constructor
    · intro h
      by_cases hm : reMatchOutputFile (expand path) = true
      · exact hm
      · rw [if_neg hm] at h
        exact absurd h (by simp)
    · intro h
      rw [if_pos h]
  · intro expand path e h
    unfold validate_output_file at h
    by_cases hm : reMatchOutputFile (expand path) = true
    · rw [if_pos hm] at h
      exact absurd h (by simp)
    · rw [if_neg hm] at h
      simpa using h.symm

/-- The whole input is always one of the rests a star can leave (consuming
nothing). -/
theorem starRests_self (p : Char → Bool) (s : List Char) : s ∈ starRests p s := by
  cases s with
  | nil => simp [starRests]
  | cons c rest =>
    unfold starRests
    by_cases hc : p c = true
    · rw [if_pos hc]; simp
    · rw [if_neg hc]; simp

/-- Soundness of the star: every rest arises by consuming a prefix of class
characters. -/
theorem starRests_sound {p : Char → Bool} {s r : List Char} (h : r ∈ starRests p s) :
    ∃ t, s = t ++ r ∧ ∀ c ∈ t, p c = true := by
  induction s with
  | nil =>
    simp [starRests] at h
    exact ⟨[], by simp [h]⟩
  | cons c rest ih =>
    unfold starRests at h
    by_cases hc : p c = true
    · rw [if_pos hc] at h
      rcases List.mem_append.mp h with h | h
      · obtain ⟨t, rfl, ht⟩ := ih h
        refine ⟨c :: t, rfl, ?_⟩
        intro x hx
        rcases List.mem_cons.mp hx with rfl | hx
        · exact hc
        · exact ht x hx
      · simp at h
        exact ⟨[], by simp [h]⟩
    · rw [if_neg hc] at h
      simp at h
      exact ⟨[], by simp [h]⟩

/-- Completeness of the star: consuming any prefix of class characters leaves
a reachable rest. -/
theorem starRests_complete {p : Char → Bool} {t : List Char} (r : List Char)
    (ht : ∀ c ∈ t, p c = true) : r ∈ starRests p (t ++ r) := by
  induction t with
  | nil => exact starRests_self p r
  | cons c t' ih =>
    have hc : p c = true := ht c (by simp)
    have : starRests p (c :: (t' ++ r)) = starRests p (t' ++ r) ++ [c :: (t' ++ r)] := by
      rw [starRests, if_pos hc]
    rw [List.cons_append, this]
    exact List.mem_append_left _ (ih (fun x hx => ht x (List.mem_cons_of_mem _ hx)))

/-- Soundness of the matcher: every rest arises from a consumed text in the
pattern's language. -/
theorem matchRests_sound {e : RE} {s r : List Char} (h : r ∈ matchRests e s) :
    ∃ t, s = t ++ r ∧ Sem e t := by
  induction e generalizing s r with
  | eps =>
    simp [matchRests] at h
    exact ⟨[], by simp [h], Sem.eps⟩
  | cls p =>
    cases s with
    | nil => simp [matchRests] at h
    | cons c rest =>
      unfold matchRests at h
      by_cases hc : p c = true
      · rw [if_pos hc] at h
        simp at h
        exact ⟨[c], by simp [h], Sem.cls hc⟩
      · rw [if_neg hc] at h
        simp at h
  | seq a b iha ihb =>
    unfold matchRests at h
    obtain ⟨m, hm, hr⟩ := List.mem_flatMap.mp h
    obtain ⟨t1, rfl, h1⟩ := iha hm
    obtain ⟨t2, rfl, h2⟩ := ihb hr
    exact ⟨t1 ++ t2, by simp, Sem.seq h1 h2⟩
  | alt a b iha ihb =>
    unfold matchRests at h
    rcases List.mem_append.mp h with h | h
    · obtain ⟨t, rfl, ht⟩ := iha h
      exact ⟨t, rfl, Sem.altL ht⟩
    · obtain ⟨t, rfl, ht⟩ := ihb h
      exact ⟨t, rfl, Sem.altR ht⟩
  | star p =>
    obtain ⟨t, rfl, ht⟩ := starRests_sound h
    exact ⟨t, rfl, Sem.star ht⟩

/-- Completeness of the matcher: any text of the pattern's language can be
consumed, leaving the remainder. -/
theorem matchRests_complete {e : RE} {t : List Char} (h : Sem e t) (r : List Char) :
    r ∈ matchRests e (t ++ r) := by
  induction h generalizing r with
  | eps => simp [matchRests]
  | cls hc =>
    rename_i p c
    simp [matchRests, hc]
  | seq h1 h2 ih1 ih2 =>
    rename_i a b t1 t2
    unfold matchRests
    refine List.mem_flatMap.mpr ⟨t2 ++ r, ?_, ih2 r⟩
    rw [List.append_assoc]
    exact ih1 (t2 ++ r)
  | altL h1 ih =>
    unfold matchRests
    exact List.mem_append_left _ (ih r)
  | altR h1 ih =>
    unfold matchRests
    exact List.mem_append_right _ (ih r)
  | star ht =>
    exact starRests_complete r ht

/-- Characters of a matched text lie in any class bounding the pattern's
classes. -/
theorem sem_chars {P : Char → Bool} {e : RE} {t : List Char}
    (hb : clsBound P e) (h : Sem e t) : ∀ c ∈ t, P c = true := by
  induction h with
  | eps => simp
  | cls hc =>
    rename_i p c
    intro x hx
    rcases List.mem_singleton.mp hx with rfl
    exact hb x hc
  | seq h1 h2 ih1 ih2 =>
    rename_i a b t1 t2
    rw [clsBound] at hb
    intro x hx
    rcases List.mem_append.mp hx with hx | hx
    · exact ih1 hb.1 x hx
    · exact ih2 hb.2 x hx
  | altL h1 ih =>
    rw [clsBound] at hb
    exact ih hb.1
  | altR h1 ih =>
    rw [clsBound] at hb
    exact ih hb.2
  | star ht =>
    intro x hx
    exact hb x (ht x hx)

/-- A literal pattern matches its own text. -/
theorem litRE_sem (l : List Char) : Sem (litRE l) l := by
  induction l with
  | nil => exact Sem.eps
  | cons c rest ih => exact Sem.seq (Sem.cls (by simp)) ih

/-- A literal pattern matches only its own text. -/
theorem litRE_sem_inv {l t : List Char} (h : Sem (litRE l) t) : t = l := by
  induction l generalizing t with
  | nil => cases h; rfl
  | cons c rest ih =>
    cases h with
    | seq h1 h2 =>
      cases h1 with
      | cls hc =>
        simp only [decide_eq_true_eq] at hc
        subst hc
        rw [ih h2]
        rfl

/-- find? returns the element when exactly one element satisfies the
predicate. -/
theorem find?_eq_some_of_unique {α : Type} {p : α → Bool} {l : List α} (a : α)
    (ha : a ∈ l) (hpa : p a = true) (huniq : ∀ b ∈ l, p b = true → b = a) :
    l.find? p = some a := by
  induction l with
  | nil => simp at ha
  | cons x xs ih =>
    by_cases hx : p x = true
    · have hxa : x = a := huniq x (by simp) hx
      subst hxa
      exact List.find?_cons_of_pos _ hx
    · rw [List.find?_cons_of_neg _ (by simpa using hx)]
      rcases List.mem_cons.mp ha with rfl | ha'
      · exact absurd hpa hx
      · exact ih ha' (fun b hb hpb => huniq b (List.mem_cons_of_mem _ hb) hpb)

/-- findSome? returns f's value at the unique position where f is some. -/
theorem findSome?_eq_some_of_unique {α β : Type} {f : α → Option β} {l : List α} (a : α) {v : β}
    (ha : a ∈ l) (hfa : f a = some v) (hnone : ∀ b ∈ l, b ≠ a → f b = none) :
    l.findSome? f = some v := by
  induction l with
  | nil => simp at ha
  | cons x xs ih =>
    rw [List.findSome?_cons]
    by_cases he : x = a
    · subst he
      rw [hfa]
    · rw [hnone x (by simp) he]
      rcases List.mem_cons.mp ha with rfl | ha'
      · exact absurd rfl he
      · exact ih ha' (fun b hb hne => hnone b (List.mem_cons_of_mem _ hb) hne)

/-- The lookbehind holds on any string ending in the lookbehind text. -/
theorem lbHolds_append (lb u : List Char) : lbHolds lb (u ++ lb) = true := by
  unfold lbHolds
  have h1 : (u ++ lb).length - lb.length = u.length := by simp
  have h2 : (u ++ lb).drop u.length = lb := List.drop_left u lb
  simp [h1, h2]

/-- A string on which the lookbehind holds ends in the lookbehind text. -/
theorem lbHolds_elim {lb pre : List Char} (h : lbHolds lb pre = true) :
    ∃ u, pre = u ++ lb ∧ u.length = pre.length - lb.length := by
  unfold lbHolds at h
  simp only [Bool.and_eq_true, decide_eq_true_eq] at h
  obtain ⟨hlen, hdrop⟩ := h
  refine ⟨pre.take (pre.length - lb.length), ?_, by rw [List.length_take]; omega⟩
  conv_lhs => rw [← List.take_append_drop (pre.length - lb.length) pre]
  rw [hdrop]

/-- Splitting a list at one occurrence of a character absent on both split
sides is unique. -/
theorem append_cons_unique {a : Char} {X1 Y1 X2 Y2 : List Char}
    (h : X1 ++ a :: Y1 = X2 ++ a :: Y2) (h1 : a ∉ X1) (h2 : a ∉ X2) :
    X1 = X2 ∧ Y1 = Y2 := by
  induction X1 generalizing X2 with
  | nil =>
    cases X2 with
    | nil => simpa using h
    | cons x xs =>
      simp only [List.nil_append, List.cons_append, List.cons.injEq] at h
      obtain ⟨rfl, -⟩ := h
      exact absurd (by simp) h2
  | cons x xs ih =>
    cases X2 with
    | nil =>
      simp only [List.cons_append, List.nil_append, List.cons.injEq] at h
      obtain ⟨rfl, -⟩ := h
      exact absurd (by simp) h1
    | cons y ys =>
      simp only [List.cons_append, List.cons.injEq] at h
      obtain ⟨rfl, h⟩ := h
      have hr := ih h (fun hm => h1 (List.mem_cons_of_mem _ hm)) (fun hm => h2 (List.mem_cons_of_mem _ hm))
      exact ⟨by rw [hr.1], hr.2⟩

/-- A character of a class a given character fails is absent from lists over
that class. -/
theorem not_mem_of_class {P : Char → Bool} {l : List Char} {a : Char}
    (h : ∀ c ∈ l, P c = true) (hPa : P a = false) : a ∉ l := by
  intro hm
  rw [h a hm] at hPa
  exact absurd hPa (by simp)

/-- Splitting at a character occurring exactly once (at the shown separator)
is unique. -/
theorem split_at_unique_char {a : Char} {X1 Y1 X2 Y2 : List Char}
    (heq : X1 ++ a :: Y1 = X2 ++ a :: Y2) (h1 : a ∉ X1) (hy : a ∉ Y1) :
    X1 = X2 ∧ Y1 = Y2 := by
  have hcnt : (X1 ++ a :: Y1).count a = 1 := by
    rw [List.count_append, List.count_cons_self]
    rw [List.count_eq_zero.mpr h1, List.count_eq_zero.mpr hy]
  rw [heq] at hcnt
  rw [List.count_append, List.count_cons_self] at hcnt
  have h2 : a ∉ X2 := List.count_eq_zero.mp (by omega)
  exact append_cons_unique heq h1 h2

/-- The lookbehind of the find patterns can hold at exactly one position of an
address whose two slashes are those after the protocol. -/
theorem lb_unique {prot tail : List Char} (hp : '/' ∉ prot) (htail : '/' ∉ tail)
    {i : Nat} (hi : i ≤ (prot ++ ':' :: '/' :: '/' :: tail).length)
    (h : lbHolds (prot ++ ':' :: '/' :: '/' :: []) ((prot ++ ':' :: '/' :: '/' :: tail).take i) = true) :
    i = prot.length + 3 := by
  obtain ⟨u, hu, -⟩ := lbHolds_elim h
  have haddr : prot ++ ':' :: '/' :: '/' :: tail =
      (u ++ (prot ++ [':'])) ++ '/' :: '/' :: ((prot ++ ':' :: '/' :: '/' :: tail).drop i) := by
    conv_lhs => rw [← List.take_append_drop i (prot ++ ':' :: '/' :: '/' :: tail)]
    rw [hu]
    simp
  have hcnt : (prot ++ ':' :: '/' :: '/' :: tail).count '/' = 2 := by
    rw [List.count_append]
    rw [List.count_eq_zero.mpr hp]
    simp [List.count_cons, List.count_eq_zero.mpr htail]
  have hcnt2 := hcnt
  rw [haddr] at hcnt2
  rw [List.count_append] at hcnt2
  simp only [List.count_cons_self] at hcnt2
  have hX2 : '/' ∉ u ++ (prot ++ [':']) := by
    apply List.count_eq_zero.mp
    have : ('/' :: ((prot ++ ':' :: '/' :: '/' :: tail).drop i)).count '/' =
        1 + ((prot ++ ':' :: '/' :: '/' :: tail).drop i).count '/' := by
      rw [List.count_cons_self]; omega
    omega
  have hX1 : '/' ∉ prot ++ [':'] := by
    intro hm
    rcases List.mem_append.mp hm with hm | hm
    · exact hp hm
    · simp at hm
  have heq2 : (prot ++ [':']) ++ '/' :: ('/' :: tail) =
      (u ++ (prot ++ [':'])) ++ '/' :: ('/' :: ((prot ++ ':' :: '/' :: '/' :: tail).drop i)) := by
    rw [← haddr]
    simp
  obtain ⟨hX, -⟩ := append_cons_unique heq2 hX1 hX2
  have hu0 : u = [] := by
    have hlen := congrArg List.length hX
    simp only [List.length_append, List.length_cons, List.length_nil] at hlen
    exact List.eq_nil_of_length_eq_zero (by omega)
  subst hu0
  have hlen2 := congrArg List.length hu
  rw [List.length_take, List.nil_append] at hlen2
  have hlb : (prot ++ ':' :: '/' :: '/' :: []).length = prot.length + 3 := by simp
  rw [hlb, Nat.min_eq_left hi] at hlen2
  exact hlen2

/-- On an address whose two slashes are the protocol separator's, the find
scan reduces to the single lookbehind position right after the separator. -/
theorem findMatchText_eq {prot tail : List Char} (e : RE) (la : List Char → Bool)
    (hp : '/' ∉ prot) (htail : '/' ∉ tail) :
    findMatchText (prot ++ ':' :: '/' :: '/' :: []) e la (prot ++ ':' :: '/' :: '/' :: tail) =
      ((matchRests e tail).find? la).map (fun rest => tail.take (tail.length - rest.length)) := by
  have haddr : prot ++ ':' :: '/' :: '/' :: tail = (prot ++ ':' :: '/' :: '/' :: []) ++ tail := by
    simp
  have hlb : (prot ++ ':' :: '/' :: '/' :: []).length = prot.length + 3 := by simp
  have hlen : (prot ++ ':' :: '/' :: '/' :: tail).length = prot.length + 3 + tail.length := by
    simp
    omega
  have htake : (prot ++ ':' :: '/' :: '/' :: tail).take (prot.length + 3) =
      prot ++ ':' :: '/' :: '/' :: [] := by
    rw [haddr, ← hlb]
    exact List.take_left _ _
  have hdrop : (prot ++ ':' :: '/' :: '/' :: tail).drop (prot.length + 3) = tail := by
    rw [haddr, ← hlb]
    exact List.drop_left _ _
  have hLBpos : lbHolds (prot ++ ':' :: '/' :: '/' :: []) ((prot ++ ':' :: '/' :: '/' :: tail).take (prot.length + 3)) = true := by
    rw [htake]
    exact lbHolds_append _ []
  unfold findMatchText
  rcases hfind : (matchRests e tail).find? la with - | rest
  · simp only [Option.map_none']
    apply List.findSome?_eq_none_iff.mpr
    intro i hi
    have hile : i ≤ (prot ++ ':' :: '/' :: '/' :: tail).length := by
      have := List.mem_range.mp hi
      omega
    by_cases hLB : lbHolds (prot ++ ':' :: '/' :: '/' :: []) ((prot ++ ':' :: '/' :: '/' :: tail).take i) = true
    · have hiL : i = prot.length + 3 := lb_unique hp htail hile hLB
      subst hiL
      rw [if_pos hLB, hdrop, hfind]
      rfl
    · rw [if_neg hLB]
  · apply findSome?_eq_some_of_unique (prot.length + 3) (List.mem_range.mpr (by omega))
    · rw [if_pos hLBpos, hdrop, hfind]
      rfl
    · intro i hi hne
      have hile : i ≤ (prot ++ ':' :: '/' :: '/' :: tail).length := by
        have := List.mem_range.mp hi
        omega
      by_cases hLB : lbHolds (prot ++ ':' :: '/' :: '/' :: []) ((prot ++ ':' :: '/' :: '/' :: tail).take i) = true
      · exact absurd (lb_unique hp htail hile hLB) hne
      · rw [if_neg hLB]

/-- isDigit in terms of the character's code point. -/
theorem isDigit_iff_toNat {c : Char} : c.isDigit = true ↔ 48 ≤ c.toNat ∧ c.toNat ≤ 57 := by
  constructor
  · intro h
    simp only [Char.isDigit, ge_iff_le, Bool.and_eq_true, decide_eq_true_eq] at h
    exact ⟨h.1, h.2⟩
  · intro h
    simp only [Char.isDigit, ge_iff_le, Bool.and_eq_true, decide_eq_true_eq]
    exact ⟨h.1, h.2⟩

/-- Characters with equal code points are equal. -/
theorem char_eq_of_toNat {c d : Char} (h : c.toNat = d.toNat) : c = d := by
  cases c with
  | mk cv hc =>
    cases d with
    | mk dv hd =>
      have : cv = dv := by
        have h2 : cv.toNat = dv.toNat := h
        exact UInt32.ext h2
      subst this
      rfl

/-- A character between two digit bounds is a digit. -/
theorem isDigit_of_between {c lo hi : Char} (hlo : lo ≤ c) (hhi : c ≤ hi)
    (h48 : 48 ≤ lo.toNat) (h57 : hi.toNat ≤ 57) : c.isDigit = true := by
  have h1 : lo.toNat ≤ c.toNat := Char.le_def.mp hlo
  have h2 : c.toNat ≤ hi.toNat := Char.le_def.mp hhi
  exact isDigit_iff_toNat.mpr ⟨by omega, by omega⟩

/-- Folding the decimal accumulator from n over t. -/
theorem decValue_foldl (n : Nat) (t : List Char) :
    t.foldl (fun m c => m * 10 + (c.toNat - '0'.toNat)) n = n * 10 ^ t.length + decValue t := by
  induction t generalizing n with
  | nil => simp [decValue]
  | cons c t ih =>
    rw [List.foldl_cons, ih]
    have hdef : decValue t = List.foldl (fun m c => m * 10 + (c.toNat - '0'.toNat)) 0 t := rfl
    have hd : decValue (c :: t) = (c.toNat - '0'.toNat) * 10 ^ t.length + decValue t := by
      unfold decValue
      rw [List.foldl_cons, ih, ← hdef]
      ring
    rw [List.length_cons, hd]
    ring

/-- Peeling one leading digit off the decimal value. -/
theorem decValue_cons (c : Char) (t : List Char) :
    decValue (c :: t) = (c.toNat - '0'.toNat) * 10 ^ t.length + decValue t := by
  unfold decValue
  rw [List.foldl_cons, decValue_foldl]
  have hdef : List.foldl (fun m c => m * 10 + (c.toNat - '0'.toNat)) 0 t = decValue t := rfl
  rw [hdef]
  ring

/-- The decimal value of a digit string is below the power of ten of its
length. -/
theorem decValue_lt {t : List Char} (h : ∀ c ∈ t, c.isDigit = true) :
    decValue t < 10 ^ t.length := by
  induction t with
  | nil => simp [decValue]
  | cons c t ih =>
    rw [decValue_cons, List.length_cons]
    have hc := isDigit_iff_toNat.mp (h c (by simp))
    have hv : c.toNat - '0'.toNat ≤ 9 := by
      have : '0'.toNat = 48 := rfl
      omega
    have ht := ih (fun x hx => h x (List.mem_cons_of_mem _ hx))
    have hK : 1 ≤ 10 ^ t.length := Nat.one_le_pow _ _ (by norm_num)
    have hmul : (c.toNat - '0'.toNat) * 10 ^ t.length ≤ 9 * 10 ^ t.length :=
      Nat.mul_le_mul_right _ hv
    have hpow : 10 ^ (t.length + 1) = 10 * 10 ^ t.length := by ring
    omega

/-- Soundness of the octet pattern: it matches only nonempty digit strings of
value at most 255. -/
theorem octet_sound {o : List Char} (h : Sem octetRE o) :
    (∀ c ∈ o, c.isDigit = true) ∧ decValue o ≤ 255 ∧ o ≠ [] := by
  have h0 : '0'.toNat = 48 := rfl
  cases h with
  | altL h1 =>
    cases h1 with
    | seq ha hb =>
      cases ha with
      | cls hc1 =>
        rename_i c1
        cases hb with
        | seq hb1 hb2 =>
          cases hb1 with
          | cls hc2 =>
            rename_i c2
            cases hb2 with
            | cls hc3 =>
              rename_i c3
              simp only [decide_eq_true_eq] at hc1 hc2
              subst hc1
              subst hc2
              simp only [Bool.and_eq_true, decide_eq_true_eq] at hc3
              have hd3 : c3.isDigit = true :=
                isDigit_of_between hc3.1 hc3.2 (by decide) (by decide)
              have ht3 := isDigit_iff_toNat.mp hd3
              have hup : c3.toNat ≤ 53 := Char.le_def.mp hc3.2
              constructor
              · intro x hx
                simp only [List.cons_append, List.nil_append, List.mem_cons] at hx
                rcases hx with rfl | rfl | rfl | hx
                · decide
                · decide
                · exact hd3
                · simp at hx
              constructor
              · show decValue ('2' :: '5' :: c3 :: []) ≤ 255
                rw [decValue_cons, decValue_cons, decValue_cons]
                simp only [List.length_cons, List.length_nil, decValue]
                have e2 : '2'.toNat = 50 := rfl
                have e5 : '5'.toNat = 53 := rfl
                norm_num
                omega
              · simp
  | altR h23 =>
    cases h23 with
    | altL h2 =>
      cases h2 with
      | seq ha hb =>
        cases ha with
        | cls hc1 =>
          rename_i c1
          cases hb with
          | seq hb1 hb2 =>
            cases hb1 with
            | cls hc2 =>
              rename_i c2
              cases hb2 with
              | cls hc3 =>
                rename_i c3
                simp only [decide_eq_true_eq] at hc1
                subst hc1
                simp only [Bool.and_eq_true, decide_eq_true_eq] at hc2
                have hd2 : c2.isDigit = true :=
                  isDigit_of_between hc2.1 hc2.2 (by decide) (by decide)
                have hup2 : c2.toNat ≤ 52 := Char.le_def.mp hc2.2
                have ht2 := isDigit_iff_toNat.mp hd2
                have ht3 := isDigit_iff_toNat.mp hc3
                constructor
                · intro x hx
                  simp only [List.cons_append, List.nil_append, List.mem_cons] at hx
                  rcases hx with rfl | rfl | rfl | hx
                  · decide
                  · exact hd2
                  · exact hc3
                  · simp at hx
                constructor
                · show decValue ('2' :: c2 :: c3 :: []) ≤ 255
                  rw [decValue_cons, decValue_cons, decValue_cons]
                  simp only [List.length_cons, List.length_nil, decValue]
                  have e2 : '2'.toNat = 50 := rfl
                  norm_num
                  omega
                · simp
    | altR h3 =>
      cases h3 with
      | seq ha hb =>
        cases hb with
        | seq hb1 hb2 =>
          cases hb1 with
          | cls hcd =>
            rename_i cd
            have htd := isDigit_iff_toNat.mp hcd
            cases ha with
            | altL ha1 =>
              cases ha1 with
              | cls hc1 =>
                rename_i c1
                simp only [Bool.or_eq_true, decide_eq_true_eq] at hc1
                have h1n : c1.toNat ≤ 49 := by
                  rcases hc1 with rfl | rfl
                  · decide
                  · decide
                have h1d : c1.isDigit = true := by
                  rcases hc1 with rfl | rfl
                  · decide
                  · decide
                cases hb2 with
                | altL hb3 =>
                  cases hb3 with
                  | cls hce =>
                    rename_i ce
                    have hte := isDigit_iff_toNat.mp hce
                    constructor
                    · intro x hx
                      simp only [List.cons_append, List.nil_append, List.mem_cons] at hx
                      rcases hx with rfl | rfl | rfl | hx
                      · exact h1d
                      · exact hcd
                      · exact hce
                      · simp at hx
                    constructor
                    · show decValue (c1 :: cd :: ce :: []) ≤ 255
                      rw [decValue_cons, decValue_cons, decValue_cons]
                      simp only [List.length_cons, List.length_nil, decValue]
                      norm_num
                      omega
                    · simp
                | altR hb4 =>
                  cases hb4
                  constructor
                  · intro x hx
                    simp only [List.cons_append, List.nil_append, List.append_nil, List.mem_cons] at hx
                    rcases hx with rfl | rfl | hx
                    · exact h1d
                    · exact hcd
                    · simp at hx
                  constructor
                  · show decValue (c1 :: cd :: []) ≤ 255
                    rw [decValue_cons, decValue_cons]
                    simp only [List.length_cons, List.length_nil, decValue]
                    norm_num
                    omega
                  · simp
            | altR ha2 =>
              cases ha2
              cases hb2 with
              | altL hb3 =>
                cases hb3 with
                | cls hce =>
                  rename_i ce
                  have hte := isDigit_iff_toNat.mp hce
                  constructor
                  · intro x hx
                    simp only [List.nil_append, List.cons_append, List.mem_cons] at hx
                    rcases hx with rfl | rfl | hx
                    · exact hcd
                    · exact hce
                    · simp at hx
                  constructor
                  · show decValue (cd :: ce :: []) ≤ 255
                    rw [decValue_cons, decValue_cons]
                    simp only [List.length_cons, List.length_nil, decValue]
                    norm_num
                    omega
                  · simp
              | altR hb4 =>
                cases hb4
                constructor
                · intro x hx
                  simp only [List.nil_append, List.cons_append, List.append_nil, List.mem_cons] at hx
                  rcases hx with rfl | hx
                  · exact hcd
                  · simp at hx
                constructor
                · show decValue (cd :: []) ≤ 255
                  rw [decValue_cons]
                  simp only [List.length_nil, decValue]
                  norm_num
                  omega
                · simp

/-- Completeness of the octet pattern: it matches every canonical octet. -/
theorem octet_complete {g : List Char} (h : canonOctet g = true) : Sem octetRE g := by
  unfold canonOctet at h
  simp only [Bool.and_eq_true, Bool.or_eq_true, decide_eq_true_eq, List.all_eq_true] at h
  obtain ⟨⟨⟨hne, hdig⟩, hlead⟩, hval⟩ := h
  have hnil : decValue ([] : List Char) = 0 := rfl
  have h0n : '0'.toNat = 48 := rfl
  rcases g with - | ⟨a, - | ⟨b, - | ⟨c, rest⟩⟩⟩
  · exact absurd rfl hne
  · have ha : a.isDigit = true := hdig a (by simp)
    exact Sem.altR (Sem.altR (Sem.seq (Sem.altR Sem.eps)
      (Sem.seq (Sem.cls ha) (Sem.altR Sem.eps))))
  · have ha : a.isDigit = true := hdig a (by simp)
    have hb : b.isDigit = true := hdig b (by simp)
    exact Sem.altR (Sem.altR (Sem.seq (Sem.altR Sem.eps)
      (Sem.seq (Sem.cls ha) (Sem.altL (Sem.cls hb)))))
  · have ha := isDigit_iff_toNat.mp (hdig a (by simp))
    have hb := isDigit_iff_toNat.mp (hdig b (by simp))
    have hc := isDigit_iff_toNat.mp (hdig c (by simp))
    have hlead' : a ≠ '0' := by
      rcases hlead with hl | hl
      · simp at hl
      · simp only [List.head?_cons, ne_eq, Option.some.injEq] at hl
        exact hl
    have ha49 : 49 ≤ a.toNat := by
      rcases Nat.lt_or_ge a.toNat 49 with hlt | hge
      · exfalso
        exact hlead' (char_eq_of_toNat (by omega))
      · exact hge
    have hrest : rest = [] := by
      by_contra hr
      have hlr : 1 ≤ rest.length := by
        cases rest with
        | nil => exact absurd rfl hr
        | cons x xs => simp
      have hd := decValue_cons a (b :: c :: rest)
      have hlen2 : (b :: c :: rest).length = rest.length + 2 := by simp
      rw [hlen2] at hd
      have h1000 : 1000 ≤ decValue (a :: b :: c :: rest) := by
        rw [hd]
        have hp : 1000 ≤ 10 ^ (rest.length + 2) := by
          calc 1000 = 10 ^ 3 := by norm_num
          _ ≤ 10 ^ (rest.length + 2) := Nat.pow_le_pow_right (by norm_num) (by omega)
        have hmul : 1 * 10 ^ (rest.length + 2) ≤ (a.toNat - '0'.toNat) * 10 ^ (rest.length + 2) :=
          Nat.mul_le_mul_right _ (by omega)
        omega
      omega
    subst hrest
    have hv3 : decValue (a :: b :: c :: []) =
        (a.toNat - 48) * 100 + ((b.toNat - 48) * 10 + (c.toNat - 48)) := by
      rw [decValue_cons, decValue_cons, decValue_cons]
      simp only [List.length_cons, List.length_nil, hnil, h0n]
      norm_num
    rw [hv3] at hval
    have ha50 : a.toNat ≤ 50 := by omega
    rcases Nat.eq_or_lt_of_le ha50 with h50 | h49lt
    · have haeq : a = '2' := char_eq_of_toNat (by rw [h50]; rfl)
      subst haeq
      have e2 : '2'.toNat = 50 := rfl
      have hb53 : b.toNat ≤ 53 := by omega
      rcases Nat.eq_or_lt_of_le hb53 with h53 | h52lt
      · have hbeq : b = '5' := char_eq_of_toNat (by rw [h53]; rfl)
        subst hbeq
        have e5 : '5'.toNat = 53 := rfl
        have hc53 : c.toNat ≤ 53 := by omega
        have hcle : c ≤ '5' := Char.le_def.mpr hc53
        have hcge : '0' ≤ c := Char.le_def.mpr hc.1
        exact Sem.altL (Sem.seq (Sem.cls (by decide))
          (Sem.seq (Sem.cls (by decide)) (Sem.cls (by simp [hcge, hcle]))))
      · have hb52 : b.toNat ≤ 52 := by omega
        have hble : b ≤ '4' := Char.le_def.mpr hb52
        have hbge : '0' ≤ b := Char.le_def.mpr hb.1
        exact Sem.altR (Sem.altL (Sem.seq (Sem.cls (by decide))
          (Sem.seq (Sem.cls (by simp [hbge, hble])) (Sem.cls (hdig c (by simp))))))
    · have e1 : '1'.toNat = 49 := rfl
      have haeq : a = '1' := char_eq_of_toNat (by omega)
      subst haeq
      exact Sem.altR (Sem.altR (Sem.seq (Sem.altL (Sem.cls (by decide)))
        (Sem.seq (Sem.cls (hdig b (by simp))) (Sem.altL (Sem.cls (hdig c (by simp)))))))

/-- Digits are digit-or-dot characters. -/
theorem digitDot_of_isDigit : ∀ c : Char, c.isDigit = true → digitDot c = true := by
  intro c h
  simp [digitDot, h]

/-- The octet pattern's classes lie in the digit-or-dot class. -/
theorem octetRE_chars : clsBound digitDot octetRE := by
  refine ⟨⟨?_, ?_, ?_⟩, ⟨?_, ?_, ?_⟩, ⟨?_, trivial⟩, ?_, ?_, trivial⟩
  · intro c h
    simp only [decide_eq_true_eq] at h
    subst h
    decide
  · intro c h
    simp only [decide_eq_true_eq] at h
    subst h
    decide
  · intro c h
    simp only [Bool.and_eq_true, decide_eq_true_eq] at h
    exact digitDot_of_isDigit c (isDigit_of_between h.1 h.2 (by decide) (by decide))
  · intro c h
    simp only [decide_eq_true_eq] at h
    subst h
    decide
  · intro c h
    simp only [Bool.and_eq_true, decide_eq_true_eq] at h
    exact digitDot_of_isDigit c (isDigit_of_between h.1 h.2 (by decide) (by decide))
  · exact digitDot_of_isDigit
  · intro c h
    simp only [Bool.or_eq_true, decide_eq_true_eq] at h
    rcases h with rfl | rfl
    · decide
    · decide
  · exact digitDot_of_isDigit
  · exact digitDot_of_isDigit

/-- The dot class lies in the digit-or-dot class. -/
theorem dotRE_chars : clsBound digitDot dotRE := by
  intro c h
  simp only [decide_eq_true_eq] at h
  subst h
  decide

/-- The ip pattern's classes lie in the digit-or-dot class. -/
theorem ipRE_chars : clsBound digitDot ipRE :=
  ⟨octetRE_chars, dotRE_chars, octetRE_chars, dotRE_chars, octetRE_chars, dotRE_chars, octetRE_chars⟩

/-- Inversion of the ip pattern: a matched text is four octet texts separated
by dots. -/
theorem ip_sound {t : List Char} (h : Sem ipRE t) :
    ∃ o1 o2 o3 o4, t = o1 ++ '.' :: (o2 ++ '.' :: (o3 ++ '.' :: o4)) ∧
      Sem octetRE o1 ∧ Sem octetRE o2 ∧ Sem octetRE o3 ∧ Sem octetRE o4 := by
  cases h with
  | seq h1 h2 =>
    cases h2 with
    | seq hd1 h3 =>
      cases hd1 with
      | cls hc1 =>
        cases h3 with
        | seq h4 h5 =>
          cases h5 with
          | seq hd2 h6 =>
            cases hd2 with
            | cls hc2 =>
              cases h6 with
              | seq h7 h8 =>
                cases h8 with
                | seq hd3 h9 =>
                  cases hd3 with
                  | cls hc3 =>
                    simp only [decide_eq_true_eq] at hc1 hc2 hc3
                    subst hc1
                    subst hc2
                    subst hc3
                    exact ⟨_, _, _, _, rfl, h1, h4, h7, h9⟩

/-- Construction of the ip pattern from four octet texts. -/
theorem ip_complete {o1 o2 o3 o4 : List Char} (h1 : Sem octetRE o1) (h2 : Sem octetRE o2)
    (h3 : Sem octetRE o3) (h4 : Sem octetRE o4) :
    Sem ipRE (o1 ++ '.' :: (o2 ++ '.' :: (o3 ++ '.' :: o4))) :=
  Sem.seq h1 (Sem.seq (Sem.cls (by decide)) (Sem.seq h2 (Sem.seq (Sem.cls (by decide))
    (Sem.seq h3 (Sem.seq (Sem.cls (by decide)) h4)))))

/-- Construction of the hostname pattern from a decomposition at a
non-digit-non-period character. -/
theorem hostname_complete {host : List Char} (hall : ∀ c ∈ host, hostChar c = true)
    {c : Char} (hc : c ∈ host) (hnd : nonDigitDot c = true) : Sem hostnameRE host := by
  obtain ⟨pre, suf, rfl⟩ := List.append_of_mem hc
  refine Sem.seq (Sem.star ?_) (Sem.seq (Sem.cls hnd) (Sem.star ?_))
  · intro x hx
    exact hall x (List.mem_append_left _ hx)
  · intro x hx
    exact hall x (List.mem_append_right _ (List.mem_cons_of_mem _ hx))

/-- Inversion of the hostname pattern: a matched text contains a
non-digit-non-period character. -/
theorem hostname_witness {t : List Char} (h : Sem hostnameRE t) :
    ∃ c ∈ t, nonDigitDot c = true := by
  cases h with
  | seq h1 h2 =>
    cases h2 with
    | seq hcls h3 =>
      cases hcls with
      | cls hnd =>
        refine ⟨_, ?_, hnd⟩
        simp

/-- The lookahead holds on a colon followed by a four or five digit port. -/
theorem portLA_intro {port : List Char} (hd : ∀ c ∈ port, c.isDigit = true)
    (hlen : port.length = 4 ∨ port.length = 5) : portLA (':' :: port) = true := by
  rcases port with - | ⟨a, - | ⟨b, - | ⟨c, - | ⟨d, r⟩⟩⟩⟩
  · simp at hlen
  · simp at hlen
  · simp at hlen
  · simp at hlen
  · show portLA (':' :: a :: b :: c :: d :: r) = true
    have ha := hd a (by simp)
    have hb := hd b (by simp)
    have hc := hd c (by simp)
    have hdd := hd d (by simp)
    simp [portLA, ha, hb, hc, hdd]

/-- Inversion of the lookahead: the rest starts with a colon and four
characters. -/
theorem portLA_elim {r : List Char} (h : portLA r = true) :
    ∃ a b c d r2, r = ':' :: a :: b :: c :: d :: r2 := by
  rcases r with - | ⟨c0, - | ⟨a, - | ⟨b, - | ⟨c, - | ⟨d, r2⟩⟩⟩⟩⟩
  · simp [portLA] at h
  · simp [portLA] at h
  · simp [portLA] at h
  · simp [portLA] at h
  · simp [portLA] at h
  · simp only [portLA, Bool.and_eq_true, decide_eq_true_eq] at h
    obtain ⟨⟨⟨⟨rfl, -⟩, -⟩, -⟩, -⟩ := h
    exact ⟨a, b, c, d, r2, rfl⟩

/-- Construction of the port pattern on a colon and a four or five digit
port. -/
theorem portRE_complete {port : List Char} (hd : ∀ c ∈ port, c.isDigit = true)
    (hlen : port.length = 4 ∨ port.length = 5) : Sem portRE (':' :: port) := by
  rcases port with - | ⟨a, - | ⟨b, - | ⟨c, - | ⟨d, - | ⟨e, r⟩⟩⟩⟩⟩
  · simp at hlen
  · simp at hlen
  · simp at hlen
  · simp at hlen
  · exact Sem.seq (Sem.cls (by decide)) (Sem.seq (Sem.cls (hd a (by simp)))
      (Sem.seq (Sem.cls (hd b (by simp))) (Sem.seq (Sem.cls (hd c (by simp)))
        (Sem.seq (Sem.cls (hd d (by simp))) (Sem.altR Sem.eps)))))
  · have hr : r = [] := by
      rcases hlen with hl | hl <;> simp at hl
      exact hl
    subst hr
    exact Sem.seq (Sem.cls (by decide)) (Sem.seq (Sem.cls (hd a (by simp)))
      (Sem.seq (Sem.cls (hd b (by simp))) (Sem.seq (Sem.cls (hd c (by simp)))
        (Sem.seq (Sem.cls (hd d (by simp))) (Sem.altL (Sem.cls (hd e (by simp))))))))

/-- pySplit never returns the empty list of parts. -/
theorem pySplit_ne_nil (sep : Char) (l : List Char) : pySplit sep l ≠ [] := by
  cases l with
  | nil => simp [pySplit]
  | cons c rest =>
    unfold pySplit
    cases pySplit sep rest with
    | nil => simp
    | cons h t =>
      by_cases hc : c = sep
      · simp [hc]
      · simp [hc]

/-- pySplit of a separator-free string is that string alone. -/
theorem pySplit_no_sep {sep : Char} {a : List Char} (h : sep ∉ a) : pySplit sep a = [a] := by
  induction a with
  | nil => rfl
  | cons c t ih =>
    have hc : ¬ (c = sep) := by
      intro e
      exact h (by simp [e])
    unfold pySplit
    rw [ih (fun hm => h (List.mem_cons_of_mem _ hm))]
    simp [hc]

/-- The step equation of pySplit. -/
theorem pySplit_cons (sep c : Char) (rest : List Char) :
    pySplit sep (c :: rest) =
      match pySplit sep rest with
      | [] => [[c]]
      | h :: t => if c = sep then [] :: h :: t else (c :: h) :: t := rfl

/-- pySplit peels the part before the first separator. -/
theorem pySplit_sep_append {sep : Char} {a : List Char} (b : List Char) (h : sep ∉ a) :
    pySplit sep (a ++ sep :: b) = a :: pySplit sep b := by
  induction a with
  | nil =>
    show pySplit sep (sep :: b) = [] :: pySplit sep b
    rw [pySplit_cons]
    cases hpb : pySplit sep b with
    | nil => exact absurd hpb (pySplit_ne_nil sep b)
    | cons x t => simp
  | cons c t ih =>
    have hc : ¬ (c = sep) := by
      intro e
      exact h (by simp [e])
    show pySplit sep (c :: (t ++ sep :: b)) = (c :: t) :: pySplit sep b
    rw [pySplit_cons, ih (fun hm => h (List.mem_cons_of_mem _ hm))]
    simp [hc]

/-- A dotted host from four canonical octets is accepted by the ipaddress
model. -/
theorem py_ip_valid_dotted {g1 g2 g3 g4 : List Char}
    (h1 : canonOctet g1 = true) (h2 : canonOctet g2 = true)
    (h3 : canonOctet g3 = true) (h4 : canonOctet g4 = true) :
    py_ip_valid (g1 ++ '.' :: (g2 ++ '.' :: (g3 ++ '.' :: g4))) = true := by
  have hd : ∀ {g : List Char}, canonOctet g = true → '.' ∉ g := by
    intro g hg
    unfold canonOctet at hg
    simp only [Bool.and_eq_true, List.all_eq_true] at hg
    exact not_mem_of_class hg.1.1.2 (by decide)
  unfold py_ip_valid
  rw [pySplit_sep_append _ (hd h1), pySplit_sep_append _ (hd h2),
    pySplit_sep_append _ (hd h3), pySplit_no_sep (hd h4)]
  simp [h1, h2, h3, h4]

/-- All characters of a dotted digit host are digit-or-dot. -/
theorem dotted_chars {g1 g2 g3 g4 : List Char}
    (h1 : ∀ c ∈ g1, c.isDigit = true) (h2 : ∀ c ∈ g2, c.isDigit = true)
    (h3 : ∀ c ∈ g3, c.isDigit = true) (h4 : ∀ c ∈ g4, c.isDigit = true) :
    ∀ c ∈ g1 ++ '.' :: (g2 ++ '.' :: (g3 ++ '.' :: g4)), digitDot c = true := by
  intro c hc
  simp only [List.mem_append, List.mem_cons] at hc
  rcases hc with hc | rfl | hc | rfl | hc | rfl | hc
  · exact digitDot_of_isDigit c (h1 c hc)
  · decide
  · exact digitDot_of_isDigit c (h2 c hc)
  · decide
  · exact digitDot_of_isDigit c (h3 c hc)
  · decide
  · exact digitDot_of_isDigit c (h4 c hc)

/-- A membership in the rests list makes the anchored match succeed. -/
theorem reMatch_of_mem {e : RE} {s r : List Char} (h : r ∈ matchRests e s) :
    reMatch e s = true := by
  unfold reMatch
  cases hm : matchRests e s with
  | nil =>
    rw [hm] at h
    simp at h
  | cons x xs => simp

/-- The negation of the digit-or-dot class is the hostname pattern's middle
class. -/
theorem nonDigitDot_eq_not : ∀ c : Char, nonDigitDot c = !digitDot c := fun _ => rfl

/-- The ip find at the match position returns exactly the colon-and-port rest
on a digit-or-dot host matched by the ip pattern. -/
theorem ip_find_eq {host port : List Char}
    (hsem : Sem ipRE host) (hhost : ∀ c ∈ host, digitDot c = true)
    (hport : ∀ c ∈ port, c.isDigit = true) (hlen : port.length = 4 ∨ port.length = 5) :
    (matchRests ipRE (host ++ ':' :: port)).find? portLA = some (':' :: port) := by
  apply find?_eq_some_of_unique
  · exact matchRests_complete hsem (':' :: port)
  · exact portLA_intro hport hlen
  · intro r hr hla
    obtain ⟨t, heq, hsemt⟩ := matchRests_sound hr
    obtain ⟨a, b, c, d, r2, rfl⟩ := portLA_elim hla
    have hcolonh : ':' ∉ host := not_mem_of_class hhost (by decide)
    have hcolonp : ':' ∉ port := not_mem_of_class hport (by decide)
    obtain ⟨ht, hp⟩ := split_at_unique_char heq hcolonh hcolonp
    rw [← hp]

/-- The hostname find at the match position succeeds when the host matches
the hostname pattern. -/
theorem hostname_find_isSome {host port : List Char}
    (hsem : Sem hostnameRE host)
    (hport : ∀ c ∈ port, c.isDigit = true) (hlen : port.length = 4 ∨ port.length = 5) :
    ((matchRests hostnameRE (host ++ ':' :: port)).find? portLA).isSome = true := by
  have hmem := matchRests_complete hsem (':' :: port)
  have hla := portLA_intro hport hlen
  cases hfind : (matchRests hostnameRE (host ++ ':' :: port)).find? portLA with
  | none =>
    exfalso
    have := List.find?_eq_none.mp hfind _ hmem
    rw [hla] at this
    exact absurd this (by simp)
  | some r => simp

/-- With a three-digit port no rest of any pattern satisfies the lookahead. -/
theorem no_la_short_port {e : RE} {host p3 : List Char}
    (hcolonh : ':' ∉ host) (hcolonp : ':' ∉ p3) (hlen : p3.length = 3) :
    ∀ r ∈ matchRests e (host ++ ':' :: p3), portLA r = false := by
  intro r hr
  cases hla : portLA r with
  | false => rfl
  | true =>
    exfalso
    obtain ⟨t, heq, -⟩ := matchRests_sound hr
    obtain ⟨a, b, c, d, r2, rfl⟩ := portLA_elim hla
    obtain ⟨-, hp⟩ := split_at_unique_char heq hcolonh hcolonp
    have := congrArg List.length hp
    simp at this
    omega

/-- On a host with a non-digit-non-period character no rest of the ip pattern
satisfies the lookahead. -/
theorem ip_no_la_hostname {host port : List Char}
    (hhost : ∀ c ∈ host, hostChar c = true)
    (hwit : ∃ c ∈ host, nonDigitDot c = true)
    (hport : ∀ c ∈ port, c.isDigit = true) :
    ∀ r ∈ matchRests ipRE (host ++ ':' :: port), portLA r = false := by
  intro r hr
  cases hla : portLA r with
  | false => rfl
  | true =>
    exfalso
    obtain ⟨t, heq, hsemt⟩ := matchRests_sound hr
    obtain ⟨a, b, c, d, r2, rfl⟩ := portLA_elim hla
    have hcolonh : ':' ∉ host := not_mem_of_class hhost (by decide)
    have hcolonp : ':' ∉ port := not_mem_of_class hport (by decide)
    obtain ⟨ht, -⟩ := split_at_unique_char heq hcolonh hcolonp
    subst ht
    obtain ⟨x, hx, hnd⟩ := hwit
    have hdd := sem_chars ipRE_chars hsemt x hx
    rw [nonDigitDot_eq_not, hdd] at hnd
    exact absurd hnd (by simp)

/-- On an all-digit-or-dot host no rest of the hostname pattern satisfies the
lookahead. -/
theorem hostname_no_la_digits {host port : List Char}
    (hhost : ∀ c ∈ host, digitDot c = true)
    (hcolonp : ':' ∉ port) :
    ∀ r ∈ matchRests hostnameRE (host ++ ':' :: port), portLA r = false := by
  intro r hr
  cases hla : portLA r with
  | false => rfl
  | true =>
    exfalso
    obtain ⟨t, heq, hsemt⟩ := matchRests_sound hr
    obtain ⟨a, b, c, d, r2, rfl⟩ := portLA_elim hla
    have hcolonh : ':' ∉ host := not_mem_of_class hhost (by decide)
    obtain ⟨ht, -⟩ := split_at_unique_char heq hcolonh hcolonp
    subst ht
    obtain ⟨x, hx, hnd⟩ := hostname_witness hsemt
    rw [nonDigitDot_eq_not, hhost x hx] at hnd
    exact absurd hnd (by simp)

/-- On a dotted host with an out-of-range octet no rest of the ip pattern
satisfies the lookahead. -/
theorem ip_no_la_badoctet {g1 g2 g3 g4 port : List Char}
    (hd1 : ∀ c ∈ g1, c.isDigit = true) (hd2 : ∀ c ∈ g2, c.isDigit = true)
    (hd3 : ∀ c ∈ g3, c.isDigit = true) (hd4 : ∀ c ∈ g4, c.isDigit = true)
    (hbad : 255 < decValue g1 ∨ 255 < decValue g2 ∨ 255 < decValue g3 ∨ 255 < decValue g4)
    (hport : ∀ c ∈ port, c.isDigit = true) :
    ∀ r ∈ matchRests ipRE ((g1 ++ '.' :: (g2 ++ '.' :: (g3 ++ '.' :: g4))) ++ ':' :: port), portLA r = false := by
  intro r hr
  cases hla : portLA r with
  | false => rfl
  | true =>
    exfalso
    obtain ⟨t, heq, hsemt⟩ := matchRests_sound hr
    obtain ⟨a, b, c, d, r2, rfl⟩ := portLA_elim hla
    have hhost := dotted_chars hd1 hd2 hd3 hd4
    have hcolonh : ':' ∉ g1 ++ '.' :: (g2 ++ '.' :: (g3 ++ '.' :: g4)) :=
      not_mem_of_class hhost (by decide)
    have hcolonp : ':' ∉ port := not_mem_of_class hport (by decide)
    obtain ⟨ht, -⟩ := split_at_unique_char heq hcolonh hcolonp
    subst ht
    obtain ⟨o1, o2, o3, o4, hdec, ho1, ho2, ho3, ho4⟩ := ip_sound hsemt
    have hdot : ∀ {g : List Char}, (∀ c ∈ g, c.isDigit = true) → '.' ∉ g := by
      intro g hg
      exact not_mem_of_class hg (by decide)
    have hodot : ∀ {o : List Char}, Sem octetRE o → '.' ∉ o := by
      intro o ho
      exact hdot (octet_sound ho).1
    obtain ⟨he1, hrest1⟩ := append_cons_unique hdec (hdot hd1) (hodot ho1)
    obtain ⟨he2, hrest2⟩ := append_cons_unique hrest1 (hdot hd2) (hodot ho2)
    obtain ⟨he3, he4⟩ := append_cons_unique hrest2 (hdot hd3) (hodot ho3)
    have hv1 := (octet_sound ho1).2.1
    have hv2 := (octet_sound ho2).2.1
    have hv3 := (octet_sound ho3).2.1
    have hv4 := (octet_sound ho4).2.1
    rw [← he1] at hv1
    rw [← he2] at hv2
    rw [← he3] at hv3
    rw [← he4] at hv4
    rcases hbad with hb | hb | hb | hb <;> omega

/-- find? fails when no element satisfies the predicate. -/
theorem find?_eq_none_of_false {α : Type} {p : α → Bool} {l : List α}
    (h : ∀ x ∈ l, p x = false) : l.find? p = none :=
  List.find?_eq_none.mpr (fun x hx => by rw [h x hx]; simp)

/-- The branch structure of validate_network_address, spelled out. -/
theorem vna_eq (addr protocol : List Char) :
    validate_network_address addr protocol =
      match findMatchText (protocol ++ ':' :: '/' :: '/' :: []) ipRE portLA addr with
      | some ipText =>
        match validate_ip_address ipText with
        | .error msg => .error (.pcoWarning msg)
        | .ok _ =>
          if reMatch (.seq (litRE (protocol ++ ':' :: '/' :: '/' :: [])) (.seq ipRE portRE)) addr then
            .ok (some addr)
          else
            if (findMatchText (protocol ++ ':' :: '/' :: '/' :: []) hostnameRE portLA addr).isSome then
              if reMatch (.seq (litRE (protocol ++ ':' :: '/' :: '/' :: [])) (.seq hostnameRE portRE)) addr then
                .ok (some addr)
              else .ok none
            else .ok none
      | none =>
        if (findMatchText (protocol ++ ':' :: '/' :: '/' :: []) hostnameRE portLA addr).isSome then
          if reMatch (.seq (litRE (protocol ++ ':' :: '/' :: '/' :: [])) (.seq hostnameRE portRE)) addr then
            .ok (some addr)
          else .ok none
        else .ok none := rfl

/-- The composite anchored pattern matches a well-shaped address. -/
theorem reMatch_composite (prot : List Char) {mid port : List Char} (e : RE)
    (hsem : Sem e mid) (hport : Sem portRE (':' :: port)) :
    reMatch (.seq (litRE (prot ++ ':' :: '/' :: '/' :: [])) (.seq e portRE))
      (prot ++ ':' :: '/' :: '/' :: (mid ++ ':' :: port)) = true := by
  have hfull : Sem (.seq (litRE (prot ++ ':' :: '/' :: '/' :: [])) (.seq e portRE))
      ((prot ++ ':' :: '/' :: '/' :: []) ++ (mid ++ ':' :: port)) :=
    Sem.seq (litRE_sem _) (Sem.seq hsem hport)
  have hmem := matchRests_complete hfull []
  rw [List.append_nil, List.append_assoc] at hmem
  exact reMatch_of_mem hmem

/-- The anchored composite pattern fails when the address starts with a
different protocol token. -/
theorem reMatch_lit_prefix_false (prot p' tail : List Char) (X : RE)
    (hne : p' ≠ prot) (hcp : ':' ∉ prot) (hcp' : ':' ∉ p') :
    reMatch (.seq (litRE (prot ++ ':' :: '/' :: '/' :: [])) X) (p' ++ ':' :: '/' :: '/' :: tail) = false := by
  cases hm : matchRests (.seq (litRE (prot ++ ':' :: '/' :: '/' :: [])) X) (p' ++ ':' :: '/' :: '/' :: tail) with
  | nil =>
    unfold reMatch
    rw [hm]
    rfl
  | cons r rs =>
    exfalso
    have hr : r ∈ matchRests (.seq (litRE (prot ++ ':' :: '/' :: '/' :: [])) X) (p' ++ ':' :: '/' :: '/' :: tail) := by
      rw [hm]
      simp
    obtain ⟨t, heq, hsemt⟩ := matchRests_sound hr
    cases hsemt with
    | seq h1 h2 =>
      have hlit := litRE_sem_inv h1
      subst hlit
      rw [List.append_assoc, List.append_assoc] at heq
      obtain ⟨hpp, -⟩ := append_cons_unique heq hcp' hcp
      exact hne hpp

/-- Digits of a canonical octet. -/
theorem canonOctet_digits {g : List Char} (h : canonOctet g = true) :
    ∀ c ∈ g, c.isDigit = true := by
  unfold canonOctet at h
  simp only [Bool.and_eq_true, List.all_eq_true] at h
  exact h.1.1.2

/-- A character missing from both sides is missing from the joined
host-colon-port text. -/
theorem not_mem_append_colon {a : Char} {host port : List Char}
    (h1 : a ∉ host) (h2 : a ≠ ':') (h3 : a ∉ port) : a ∉ host ++ ':' :: port := by
  intro hm
  rcases List.mem_append.mp hm with hm | hm
  · exact h1 hm
  · rcases List.mem_cons.mp hm with hm | hm
    · exact h2 hm
    · exact h3 hm

/-- validate_network_address accepts a well-formed address with a canonical
dotted ip v4 host, returning it unchanged. -/
theorem vna_ip_positive {prot g1 g2 g3 g4 port : List Char}
    (hprot : ∀ c ∈ prot, c.isAlphanum = true)
    (h1 : canonOctet g1 = true) (h2 : canonOctet g2 = true)
    (h3 : canonOctet g3 = true) (h4 : canonOctet g4 = true)
    (hport : ∀ c ∈ port, c.isDigit = true) (hlen : port.length = 4 ∨ port.length = 5) :
    validate_network_address
        (prot ++ ':' :: '/' :: '/' :: ((g1 ++ '.' :: (g2 ++ '.' :: (g3 ++ '.' :: g4))) ++ ':' :: port)) prot =
      .ok (some (prot ++ ':' :: '/' :: '/' :: ((g1 ++ '.' :: (g2 ++ '.' :: (g3 ++ '.' :: g4))) ++ ':' :: port))) := by
  have hhost : ∀ c ∈ g1 ++ '.' :: (g2 ++ '.' :: (g3 ++ '.' :: g4)), digitDot c = true :=
    dotted_chars (canonOctet_digits h1) (canonOctet_digits h2)
      (canonOctet_digits h3) (canonOctet_digits h4)
  have hsem : Sem ipRE (g1 ++ '.' :: (g2 ++ '.' :: (g3 ++ '.' :: g4))) :=
    ip_complete (octet_complete h1) (octet_complete h2) (octet_complete h3) (octet_complete h4)
  have hslashp : '/' ∉ prot := not_mem_of_class hprot (by decide)
  have hslasht : '/' ∉ (g1 ++ '.' :: (g2 ++ '.' :: (g3 ++ '.' :: g4))) ++ ':' :: port :=
    not_mem_append_colon (not_mem_of_class hhost (by decide)) (by decide)
      (not_mem_of_class hport (by decide))
  have hidx : ((g1 ++ '.' :: (g2 ++ '.' :: (g3 ++ '.' :: g4))) ++ ':' :: port).length -
      (':' :: port).length = (g1 ++ '.' :: (g2 ++ '.' :: (g3 ++ '.' :: g4))).length := by
    simp
    omega
  have hfi : findMatchText (prot ++ ':' :: '/' :: '/' :: []) ipRE portLA
      (prot ++ ':' :: '/' :: '/' :: ((g1 ++ '.' :: (g2 ++ '.' :: (g3 ++ '.' :: g4))) ++ ':' :: port)) =
      some (g1 ++ '.' :: (g2 ++ '.' :: (g3 ++ '.' :: g4))) := by
    rw [findMatchText_eq ipRE portLA hslashp hslasht, ip_find_eq hsem hhost hport hlen]
    simp only [Option.map_some', hidx]
    rw [List.take_left]
  have hvalid : validate_ip_address (g1 ++ '.' :: (g2 ++ '.' :: (g3 ++ '.' :: g4))) =
      .ok (g1 ++ '.' :: (g2 ++ '.' :: (g3 ++ '.' :: g4))) := by
    unfold validate_ip_address
    rw [py_ip_valid_dotted h1 h2 h3 h4]
    simp
  have hmatch := reMatch_composite prot ipRE hsem (portRE_complete hport hlen)
  rw [vna_eq, hfi]
  simp only [hvalid, hmatch]
  simp

/-- validate_network_address accepts a well-formed address with a hostname
host, returning it unchanged. -/
theorem vna_hostname_positive {prot host port : List Char}
    (hprot : ∀ c ∈ prot, c.isAlphanum = true)
    (hhost : ∀ c ∈ host, hostChar c = true)
    (hwit : ∃ c ∈ host, nonDigitDot c = true)
    (hport : ∀ c ∈ port, c.isDigit = true) (hlen : port.length = 4 ∨ port.length = 5) :
    validate_network_address (prot ++ ':' :: '/' :: '/' :: (host ++ ':' :: port)) prot =
      .ok (some (prot ++ ':' :: '/' :: '/' :: (host ++ ':' :: port))) := by
  obtain ⟨w, hw, hwnd⟩ := hwit
  have hsem : Sem hostnameRE host := hostname_complete hhost hw hwnd
  have hslashp : '/' ∉ prot := not_mem_of_class hprot (by decide)
  have hslasht : '/' ∉ host ++ ':' :: port :=
    not_mem_append_colon (not_mem_of_class hhost (by decide)) (by decide)
      (not_mem_of_class hport (by decide))
  have hfi : findMatchText (prot ++ ':' :: '/' :: '/' :: []) ipRE portLA
      (prot ++ ':' :: '/' :: '/' :: (host ++ ':' :: port)) = none := by
    rw [findMatchText_eq ipRE portLA hslashp hslasht]
    rw [find?_eq_none_of_false (ip_no_la_hostname hhost ⟨w, hw, hwnd⟩ hport)]
    rfl
  have hfh := hostname_find_isSome hsem hport hlen
  cases hfind : (matchRests hostnameRE (host ++ ':' :: port)).find? portLA with
  | none =>
    rw [hfind] at hfh
    simp at hfh
  | some r =>
    have hfh2 : findMatchText (prot ++ ':' :: '/' :: '/' :: []) hostnameRE portLA
        (prot ++ ':' :: '/' :: '/' :: (host ++ ':' :: port)) =
        some ((host ++ ':' :: port).take ((host ++ ':' :: port).length - r.length)) := by
      rw [findMatchText_eq hostnameRE portLA hslashp hslasht, hfind]
      rfl
    have hmatch := reMatch_composite prot hostnameRE hsem (portRE_complete hport hlen)
    rw [vna_eq, hfi]
    simp only [hfh2, hmatch]
    simp

/-- With a wrong protocol token the validator signals invalid: it returns
None, or raises the PcoWarning of an ill-formed extracted ip. -/
theorem vna_wrong_protocol {prot p' tail : List Char}
    (hprot : ∀ c ∈ prot, c.isAlphanum = true) (hp' : ∀ c ∈ p', c.isAlphanum = true)
    (hne : p' ≠ prot) :
    validate_network_address (p' ++ ':' :: '/' :: '/' :: tail) prot = .ok none ∨
      ∃ m, validate_network_address (p' ++ ':' :: '/' :: '/' :: tail) prot =
        .error (.pcoWarning m) := by
  have hcp : ':' ∉ prot := not_mem_of_class hprot (by decide)
  have hcp' : ':' ∉ p' := not_mem_of_class hp' (by decide)
  have hm1 := reMatch_lit_prefix_false prot p' tail (.seq ipRE portRE) hne hcp hcp'
  have hm2 := reMatch_lit_prefix_false prot p' tail (.seq hostnameRE portRE) hne hcp hcp'
  rw [vna_eq]
  cases hfi : findMatchText (prot ++ ':' :: '/' :: '/' :: []) ipRE portLA (p' ++ ':' :: '/' :: '/' :: tail) with
  | none =>
    left
    cases hIs : (findMatchText (prot ++ ':' :: '/' :: '/' :: []) hostnameRE portLA (p' ++ ':' :: '/' :: '/' :: tail)).isSome with
    | false => simp [hIs]
    | true => simp [hIs, hm2]
  | some t =>
    cases hv : validate_ip_address t with
    | error m =>
      right
      exact ⟨m, by simp [hv]⟩
    | ok y =>
      left
      cases hIs : (findMatchText (prot ++ ':' :: '/' :: '/' :: []) hostnameRE portLA (p' ++ ':' :: '/' :: '/' :: tail)).isSome with
      | false => simp [hv, hm1, hIs]
      | true => simp [hv, hm1, hIs, hm2]

/-- With a three-digit port the validator returns None. -/
theorem vna_short_port {prot host p3 : List Char}
    (hprot : ∀ c ∈ prot, c.isAlphanum = true)
    (hhost : ∀ c ∈ host, hostChar c = true)
    (hp3 : ∀ c ∈ p3, c.isDigit = true) (hlen : p3.length = 3) :
    validate_network_address (prot ++ ':' :: '/' :: '/' :: (host ++ ':' :: p3)) prot = .ok none := by
  have hslashp : '/' ∉ prot := not_mem_of_class hprot (by decide)
  have hslasht : '/' ∉ host ++ ':' :: p3 :=
    not_mem_append_colon (not_mem_of_class hhost (by decide)) (by decide)
      (not_mem_of_class hp3 (by decide))
  have hcolonh : ':' ∉ host := not_mem_of_class hhost (by decide)
  have hcolonp : ':' ∉ p3 := not_mem_of_class hp3 (by decide)
  have hfi : findMatchText (prot ++ ':' :: '/' :: '/' :: []) ipRE portLA
      (prot ++ ':' :: '/' :: '/' :: (host ++ ':' :: p3)) = none := by
    rw [findMatchText_eq ipRE portLA hslashp hslasht]
    rw [find?_eq_none_of_false (no_la_short_port hcolonh hcolonp hlen)]
    rfl
  have hfh : findMatchText (prot ++ ':' :: '/' :: '/' :: []) hostnameRE portLA
      (prot ++ ':' :: '/' :: '/' :: (host ++ ':' :: p3)) = none := by
    rw [findMatchText_eq hostnameRE portLA hslashp hslasht]
    rw [find?_eq_none_of_false (no_la_short_port hcolonh hcolonp hlen)]
    rfl
  rw [vna_eq, hfi]
  simp [hfh]

/-- With an out-of-range octet in a dotted host the validator returns None. -/
theorem vna_bad_octet {prot g1 g2 g3 g4 port : List Char}
    (hprot : ∀ c ∈ prot, c.isAlphanum = true)
    (hd1 : ∀ c ∈ g1, c.isDigit = true) (hd2 : ∀ c ∈ g2, c.isDigit = true)
    (hd3 : ∀ c ∈ g3, c.isDigit = true) (hd4 : ∀ c ∈ g4, c.isDigit = true)
    (hbad : 255 < decValue g1 ∨ 255 < decValue g2 ∨ 255 < decValue g3 ∨ 255 < decValue g4)
    (hport : ∀ c ∈ port, c.isDigit = true) :
    validate_network_address
      (prot ++ ':' :: '/' :: '/' :: ((g1 ++ '.' :: (g2 ++ '.' :: (g3 ++ '.' :: g4))) ++ ':' :: port)) prot = .ok none := by
  have hhost := dotted_chars hd1 hd2 hd3 hd4
  have hslashp : '/' ∉ prot := not_mem_of_class hprot (by decide)
  have hslasht : '/' ∉ (g1 ++ '.' :: (g2 ++ '.' :: (g3 ++ '.' :: g4))) ++ ':' :: port :=
    not_mem_append_colon (not_mem_of_class hhost (by decide)) (by decide)
      (not_mem_of_class hport (by decide))
  have hcolonp : ':' ∉ port := not_mem_of_class hport (by decide)
  have hfi : findMatchText (prot ++ ':' :: '/' :: '/' :: []) ipRE portLA
      (prot ++ ':' :: '/' :: '/' :: ((g1 ++ '.' :: (g2 ++ '.' :: (g3 ++ '.' :: g4))) ++ ':' :: port)) = none := by
    rw [findMatchText_eq ipRE portLA hslashp hslasht]
    rw [find?_eq_none_of_false (ip_no_la_badoctet hd1 hd2 hd3 hd4 hbad hport)]
    rfl
  have hfh : findMatchText (prot ++ ':' :: '/' :: '/' :: []) hostnameRE portLA
      (prot ++ ':' :: '/' :: '/' :: ((g1 ++ '.' :: (g2 ++ '.' :: (g3 ++ '.' :: g4))) ++ ':' :: port)) = none := by
    rw [findMatchText_eq hostnameRE portLA hslashp hslasht]
    rw [find?_eq_none_of_false (hostname_no_la_digits hhost hcolonp)]
    rfl
  rw [vna_eq, hfi]
  simp only [hfh]
  simp

/-- Claim C3: validate_network_address returns well-formed addresses
unchanged, both with a canonical dotted ip v4 host (octets 0-255, no leading
zeros) and with a hostname containing a character that is neither digit nor
period; malformed variants signal invalid: a wrong protocol token yields None
or the PcoWarning of an ill-formed extracted ip, a three-digit port yields
None, and an out-of-range octet yields None. -/
theorem spec_c3 :
    (∀ prot g1 g2 g3 g4 port : List Char, prot ≠ [] →
       (∀ c ∈ prot, c.isAlphanum = true) →
       canonOctet g1 = true → canonOctet g2 = true →
       canonOctet g3 = true → canonOctet g4 = true →
       (∀ c ∈ port, c.isDigit = true) → (port.length = 4 ∨ port.length = 5) →
       validate_network_address
           (prot ++ ':' :: '/' :: '/' :: ((g1 ++ '.' :: (g2 ++ '.' :: (g3 ++ '.' :: g4))) ++ ':' :: port)) prot =
         .ok (some (prot ++ ':' :: '/' :: '/' :: ((g1 ++ '.' :: (g2 ++ '.' :: (g3 ++ '.' :: g4))) ++ ':' :: port)))) ∧
    (∀ prot host port : List Char, prot ≠ [] →
       (∀ c ∈ prot, c.isAlphanum = true) →
       (∀ c ∈ host, hostChar c = true) → (∃ c ∈ host, nonDigitDot c = true) →
       (∀ c ∈ port, c.isDigit = true) → (port.length = 4 ∨ port.length = 5) →
       validate_network_address (prot ++ ':' :: '/' :: '/' :: (host ++ ':' :: port)) prot =
         .ok (some (prot ++ ':' :: '/' :: '/' :: (host ++ ':' :: port)))) ∧
    (∀ prot p' tail : List Char, prot ≠ [] →
       (∀ c ∈ prot, c.isAlphanum = true) → (∀ c ∈ p', c.isAlphanum = true) → p' ≠ prot →
       validate_network_address (p' ++ ':' :: '/' :: '/' :: tail) prot = .ok none ∨
         ∃ m, validate_network_address (p' ++ ':' :: '/' :: '/' :: tail) prot =
           .error (.pcoWarning m)) ∧
    (∀ prot host p3 : List Char, prot ≠ [] →
       (∀ c ∈ prot, c.isAlphanum = true) →
       (∀ c ∈ host, hostChar c = true) →
       (∀ c ∈ p3, c.isDigit = true) → p3.length = 3 →
       validate_network_address (prot ++ ':' :: '/' :: '/' :: (host ++ ':' :: p3)) prot = .ok none) ∧
    (∀ prot g1 g2 g3 g4 port : List Char, prot ≠ [] →
       (∀ c ∈ prot, c.isAlphanum = true) →
       (∀ c ∈ g1, c.isDigit = true) → (∀ c ∈ g2, c.isDigit = true) →
       (∀ c ∈ g3, c.isDigit = true) → (∀ c ∈ g4, c.isDigit = true) →
       (255 < decValue g1 ∨ 255 < decValue g2 ∨ 255 < decValue g3 ∨ 255 < decValue g4) →
       (∀ c ∈ port, c.isDigit = true) → (port.length = 4 ∨ port.length = 5) →
       validate_network_address
         (prot ++ ':' :: '/' :: '/' :: ((g1 ++ '.' :: (g2 ++ '.' :: (g3 ++ '.' :: g4))) ++ ':' :: port)) prot = .ok none) := by
  refine ⟨?_, ?_, ?_, ?_, ?_⟩
  · intro prot g1 g2 g3 g4 port hne hprot h1 h2 h3 h4 hport hlen
    exact vna_ip_positive hprot h1 h2 h3 h4 hport hlen
  · intro prot host port hne hprot hhost hwit hport hlen
    exact vna_hostname_positive hprot hhost hwit hport hlen
  · intro prot p' tail hnonempty hprot hp' hne
    exact vna_wrong_protocol hprot hp' hne
  · intro prot host p3 hne hprot hhost hp3 hlen
    exact vna_short_port hprot hhost hp3 hlen
  · intro prot g1 g2 g3 g4 port hne hprot hd1 hd2 hd3 hd4 hbad hport hlen
    exact vna_bad_octet hprot hd1 hd2 hd3 hd4 hbad hport

/-- The legacy client's is_running, by contrast, swallows a connection failure
and reports false (the packaged client raises instead, as spec_c7 shows). -/
theorem client_is_running_swallows (env : CEnv) (h : env.statusResp = .connError) :
    client_is_running env = false := by
  unfold client_is_running
  rw [h]

/-- Witness: the legacy swallow behaviour at a concrete failing oracle. -/
theorem client_is_running_swallows_witness :
    client_is_running { statusResp := .connError, killResp := .connError, finishedJson := none } = false :=
  client_is_running_swallows _ rfl
